import Mathlib

/-!
# StreamCore collection pipeline — a shallow embedding

This file embeds the core of the StreamCore collector
(`collector.py`, `merge_dedupe.py`, `db_config.py`) as executable Lean
definitions and proves properties of the embedded code.

Modelling conventions:
* SQLite tables become Lean lists kept in rowid order; `sc_vod`'s
  `INTEGER PRIMARY KEY AUTOINCREMENT` column is modelled by an explicit
  `nextVodId` counter (SQLite never reuses an autoincrement id).
* Python strings become `String`; a SQL `NULL` text and `''` behave the
  same under Python truthiness, so both are modelled by `""`.
* HTTP traffic is modelled by oracles: a function from the attempt (or
  page, or batch) number to the outcome the network would produce.
* The float score of `select_primary_record` is modelled scaled by
  10^6 into `Int`, which preserves every comparison the code makes
  (`score > best_score` with `best_score` starting at `-1`).
* Timestamps (`int(time.time())`, `time.strftime`) are passed in as an
  explicit `now` argument.
-/

/-! ## Python string primitives (character-list implementations) -/

/-- Python `str.strip()` on a character list: drop whitespace at both ends. -/
def listStrip (l : List Char) : List Char :=
  ((l.dropWhile Char.isWhitespace).reverse.dropWhile Char.isWhitespace).reverse

/-- Python `str.strip()`. -/
def pyStrip (s : String) : String := String.mk (listStrip s.data)

/-- Python `str.rstrip('_')`, used on `res_id_prefix` values. -/
def rstripUnderscores (s : String) : String :=
  String.mk ((s.data.reverse.dropWhile (fun c => c == '_')).reverse)

/-- One fuel-indexed step of Python `str.replace` (non-overlapping,
left-to-right) for a nonempty pattern `pat`. -/
def listReplaceAux (pat rep : List Char) : Nat → List Char → List Char
  | 0, s => s
  | _ + 1, [] => []
  | fuel + 1, c :: rest =>
    if pat.isPrefixOf (c :: rest) then
      rep ++ listReplaceAux pat rep fuel (List.drop pat.length (c :: rest))
    else
      c :: listReplaceAux pat rep fuel rest

/-- Python `s.replace(pat, rep)` for a nonempty pattern. -/
def pyReplace (s pat rep : String) : String :=
  String.mk (listReplaceAux pat.data rep.data s.data.length s.data)

/-- Lexicographic comparison of character lists by code point, the order
Python's `sorted` uses on strings. -/
def listLe : List Char → List Char → Bool
  | [], _ => true
  | _ :: _, [] => false
  | a :: as, b :: bs =>
    if a.toNat < b.toNat then true
    else if b.toNat < a.toNat then false
    else listLe as bs

/-- Python's string order (`sorted(...)` on `str` keys). -/
def strLe (a b : String) : Prop := listLe a.data b.data = true

instance : DecidableRel strLe := fun a b => by unfold strLe; infer_instance

instance : IsTotal String strLe := by
  constructor
  intro a b
  unfold strLe
  generalize a.data = x
  generalize b.data = y
  induction x generalizing y with
  | nil => left; rfl
  | cons c cs ih =>
    cases y with
    | nil => right; rfl
    | cons d ds =>
      by_cases h1 : c.toNat < d.toNat
      · left; simp [listLe, h1]
      · by_cases h2 : d.toNat < c.toNat
        · right; simp [listLe, h1, h2, Nat.lt_asymm h2]
        · have he : c.toNat = d.toNat := Nat.le_antisymm (Nat.le_of_not_lt h2) (Nat.le_of_not_lt h1)
          rcases ih ds with h | h
          · left; simp [listLe, h1, h2, h]
          · right; simp [listLe, h1, h2, he, h]

instance : IsTrans String strLe := by
  constructor
  intro a b c
  unfold strLe
  generalize a.data = x
  generalize b.data = y
  generalize c.data = z
  induction x generalizing y z with
  | nil => intro _ _; rfl
  | cons p ps ih =>
    cases y with
    | nil => intro h; simp [listLe] at h
    | cons q qs =>
      cases z with
      | nil => intro _ h; simp [listLe] at h
      | cons r rs =>
        intro h1 h2
        simp only [listLe] at h1 h2 ⊢
        split at h1
        · next hpq =>
          split at h2
          · next hqr => simp [Nat.lt_trans hpq hqr]
          · next hqr =>
            split at h2
            · exact absurd h2 (by simp)
            · next hrq =>
              have : q.toNat = r.toNat := Nat.le_antisymm (Nat.le_of_not_lt hrq) (Nat.le_of_not_lt hqr)
              simp [this ▸ hpq]
        · next hpq =>
          split at h1
          · exact absurd h1 (by simp)
          · next hqp =>
            have hepq : p.toNat = q.toNat := Nat.le_antisymm (Nat.le_of_not_lt hqp) (Nat.le_of_not_lt hpq)
            split at h2
            · next hqr => simp [hepq ▸ hqr]
            · next hqr =>
              split at h2
              · exact absurd h2 (by simp)
              · next hrq =>
                have heqr : q.toNat = r.toNat := Nat.le_antisymm (Nat.le_of_not_lt hrq) (Nat.le_of_not_lt hqr)
                have h3 := ih qs rs h1 h2
                simp [hepq, heqr, Nat.lt_irrefl, h3]

/-- Python `sorted` on strings. -/
def sortStrings (l : List String) : List String := List.insertionSort strLe l

/-! ## Data model (`db_config.py` INIT_SCHEMA, parsed rows) -/

/-- A row of `sc_config` (a configured upstream source). `res_mapping` is
the JSON mapping already parsed into an association list, and
`resIdPrefix` models the `res_id_prefix` column. -/
structure Source where
  res_source_id : Nat
  res_name : String
  res_url : String
  data_format : String
  resIdPrefix : String
  res_mapping : List (String × Int)
  operation_mode : String
deriving DecidableEq

/-- A row of `sc_vod`.  The `hot_rank` column is added out of band by the
trending collaborator (it is absent from INIT_SCHEMA); rows inserted by
the collector carry its column default `0`. -/
structure Vod where
  vod_id : Nat
  res_unique_id : String
  res_source_id : Nat
  vod_name : String
  vod_en : String
  vod_type_id : Int
  vod_pic : String
  vod_remarks : String
  vod_blurb : String
  vod_play_url : String
  vod_play_from : String
  vod_actor : String
  vod_director : String
  vod_year : String
  vod_area : String
  vod_lang : String
  vod_class : String
  vod_time : Int
  vod_time_hits : Int
  vod_hits : Int
  hot_rank : Int
deriving DecidableEq

/-- A row of `sc_merge_log`; `sourcePrefixes` models the
`source_prefixes` column and `merged_vod_ids` the JSON-encoded id list. -/
structure MergeLogEntry where
  primary_vod_id : Nat
  merged_vod_ids : List Nat
  sourcePrefixes : String
  merge_timestamp : Int
  merge_key : String
deriving DecidableEq

/-- One database file: the tables of INIT_SCHEMA plus the autoincrement
state of `sc_vod`.  `search` rows are `(vod_id, search_text)`. -/
structure DB where
  config : List Source
  vod : List Vod
  search : List (Nat × String)
  mergeLog : List MergeLogEntry
  nextVodId : Nat
deriving DecidableEq

/-- `init_db`: a freshly initialised, empty database file. -/
def initDB : DB := { config := [], vod := [], search := [], mergeLog := [], nextVodId := 1 }

/-- A raw record of an upstream JSON payload (MacCMS `list`/`detail`
item), after the `vod.get(..., default)`/`str(...)` accesses the code
performs.  `vod_blurb` already carries the `vod_content` fallback and
`vod_time` the `convert_time_to_timestamp` result (`none` = key absent,
in which case the code falls back to `int(time.time())`). -/
structure RawVod where
  vod_id : String
  vod_name : String
  type_id : String
  vod_en : String
  vod_pic : String
  vod_remarks : String
  vod_blurb : String
  vod_actor : String
  vod_director : String
  vod_play_url : String
  vod_play_from : String
  vod_year : String
  vod_area : String
  vod_lang : String
  vod_class : String
  vod_time : Option Int
  vod_time_hits : Int
  vod_hits : Int
deriving DecidableEq

/-- A decoded MacCMS JSON response (`{code, page, pagecount, total,
limit, list}`); a field is `none` when the key is absent. -/
structure ApiResp where
  code : Int
  page : Option Int
  pagecount : Option Int
  total : Option Int
  limit : Option Int
  list : List RawVod
deriving DecidableEq

/-! ## merge_dedupe.py -/

/-- The rows of `sc_vod` whose `vod_id` is in `vod_ids`, in table order
(`SELECT ... WHERE vod_id IN (...)`). -/
def groupRows (db : DB) (vod_ids : List Nat) : List Vod :=
  db.vod.filter (fun v => vod_ids.contains v.vod_id)

/-- The `res_id_prefix` of the config row joined on `res_source_id`
(`JOIN sc_config c ON v.res_source_id = c.res_source_id`). -/
def resIdPrefixOf (db : DB) (sid : Nat) : Option String :=
  (db.config.find? (fun s => s.res_source_id == sid)).map (fun s => s.resIdPrefix)

/-- The score of one candidate in `select_primary_record`, scaled by
10^6: the source computes `1000/500/100` bonuses plus
`vod_time / 1000000.0`, and only ever compares scores, so the scaling
preserves its behaviour exactly. -/
def scoreScaled (v : Vod) : Int :=
  (if v.vod_play_url = "" then 0 else 1000 * 1000000)
    + (if v.vod_blurb = "" then 0 else 500 * 1000000)
    + (if v.vod_pic = "" then 0 else 100 * 1000000)
    + v.vod_time

/-- One step of the best-score fold of `select_primary_record`
(`if score > best_score`). -/
def selStep (best : Option Nat × Int) (v : Vod) : Option Nat × Int :=
  if best.2 < scoreScaled v then (some v.vod_id, scoreScaled v) else best

/-- `select_primary_record`: pick the best-scoring record of the group
(initial `best_score = -1`, scaled to `-1000000`). -/
def select_primary_record (db : DB) (vod_ids : List Nat) : Option Nat :=
  ((groupRows db vod_ids).foldl selStep (none, -1000000)).1

/-- The join of the group's rows with their source's stripped
`res_id_prefix` (rows whose source is missing from `sc_config` drop out
of the inner join). -/
def joinRows (db : DB) (vod_ids : List Nat) : List (Vod × String) :=
  (groupRows db vod_ids).filterMap
    (fun v => (resIdPrefixOf db v.res_source_id).map (fun p => (v, rstripUnderscores p)))

/-- One step of the `sources_data` dict build in `merge_play_data`: add
`(source_prefix, play_url)` when the url is nonempty and the prefix is
not present yet (first member per prefix wins). -/
def addPlayRow (acc : List (String × String)) (row : Vod × String) : List (String × String) :=
  if row.1.vod_play_url != "" && (acc.find? (fun q => q.1 == row.2)).isNone then
    acc ++ [(row.2, row.1.vod_play_url)]
  else acc

/-- `merge_play_data`: returns `(merged_play_from, merged_play_url)`,
the `'$$$'`-joins over the source-prefix-sorted deduplicated play data. -/
def merge_play_data (db : DB) (vod_ids : List Nat) : String × String :=
  let sources_data := (joinRows db vod_ids).foldl addPlayRow []
  let sortedKeys := sortStrings (sources_data.map (fun q => q.1))
  let play_urls := sortedKeys.filterMap
    (fun k => (sources_data.find? (fun q => q.1 == k)).map (fun q => q.2))
  (String.intercalate "$$$" sortedKeys, String.intercalate "$$$" play_urls)

/-- `merge_duplicate_group_with_log`.  Returns the new database, the
primary id and the number of deleted duplicates.  When
`select_primary_record` returns no id (empty group) the SQL `INSERT`
would violate `primary_vod_id NOT NULL`; `auto_merge` catches the
exception and, as the preceding `UPDATE ... WHERE vod_id = NULL`
matches no row, the database is unchanged — modelled by the `none`
branch. -/
def merge_duplicate_group_with_log (db : DB) (vod_ids : List Nat) (merge_key : String)
    (now : Int) : DB × Option Nat × Nat :=
  match select_primary_record db vod_ids with
  | none => (db, none, 0)
  | some primary_id =>
    let duplicate_ids := vod_ids.filter (fun vid => vid != primary_id)
    let source_map := joinRows db vod_ids
    let sp := String.intercalate "," (source_map.map (fun q => q.2))
    let mu := merge_play_data db vod_ids
    let vod1 := db.vod.map (fun v =>
      if v.vod_id == primary_id then
        { v with vod_play_from := mu.1, vod_play_url := mu.2 }
      else v)
    let entry : MergeLogEntry :=
      { primary_vod_id := primary_id, merged_vod_ids := vod_ids, sourcePrefixes := sp,
        merge_timestamp := now, merge_key := merge_key }
    let vod2 := vod1.filter (fun v => !(duplicate_ids.contains v.vod_id))
    let search2 := db.search.filter (fun e => !(duplicate_ids.contains e.1))
    ({ db with vod := vod2, search := search2, mergeLog := db.mergeLog ++ [entry] },
      some primary_id, duplicate_ids.length)

/-- The merge identity key `(vod_name, vod_year)`. -/
def vodKey (v : Vod) : String × String := (v.vod_name, v.vod_year)

/-- The distinct `(vod_name, vod_year)` keys of the table, in first
occurrence order (the `GROUP BY` scan). -/
def distinctKeys (l : List Vod) : List (String × String) :=
  l.foldl (fun ks v => if ks.contains (vodKey v) then ks else ks ++ [vodKey v]) []

/-- The ids of the records sharing key `k`, in table order
(`GROUP_CONCAT(vod_id)`). -/
def groupIds (db : DB) (k : String × String) : List Nat :=
  (db.vod.filter (fun v => vodKey v == k)).map (fun v => v.vod_id)

/-- `find_duplicate_groups`: every `(title, year)` key held by more than
one record, with the member ids (`HAVING dup_count > 1`,
`ORDER BY dup_count DESC`). -/
def find_duplicate_groups (db : DB) : List ((String × String) × List Nat) :=
  let gs := (distinctKeys db.vod).map (fun k => (k, groupIds db k))
  List.insertionSort (fun a b => b.2.length ≤ a.2.length)
    (gs.filter (fun g => 1 < g.2.length))

/-- The `merge_key` string `f"{vod_name}|{vod_year}"`. -/
def mergeKeyStr (k : String × String) : String := k.1 ++ "|" ++ k.2

/-- One iteration of `auto_merge`'s loop: merge a duplicate group and
accumulate `(groups_merged, records_deleted)`; a group whose merge
raised (no primary) leaves the counters alone. -/
def mergeStep (now : Int) (acc : DB × Nat × Nat)
    (g : (String × String) × List Nat) : DB × Nat × Nat :=
  let r := merge_duplicate_group_with_log acc.1 g.2 (mergeKeyStr g.1) now
  match r.2.1 with
  | some _ => (r.1, acc.2.1 + 1, acc.2.2 + r.2.2)
  | none => (r.1, acc.2.1, acc.2.2)

/-- `auto_merge`: run the merge over every duplicate group; returns the
database and `(groups_merged, records_deleted)`. -/
def auto_merge (db : DB) (now : Int) : DB × Nat × Nat :=
  (find_duplicate_groups db).foldl (mergeStep now) (db, 0, 0)

/-! ## collector.py — hot-rank reconciliation -/

/-- The `ORDER BY vod_time DESC, vod_id DESC` order of
`sync_hot_rank_to_new_records` (total because `vod_id` is the primary
key). -/
def hotGE (a b : Vod) : Prop :=
  b.vod_time < a.vod_time ∨ (a.vod_time = b.vod_time ∧ b.vod_id ≤ a.vod_id)

instance : DecidableRel hotGE := fun a b => by unfold hotGE; infer_instance

instance : IsTotal Vod hotGE := by
  constructor
  intro a b
  unfold hotGE
  rcases lt_trichotomy a.vod_time b.vod_time with h | h | h
  · right; left; exact h
  · rcases Nat.le_total b.vod_id a.vod_id with h2 | h2
    · left; right; exact ⟨h, h2⟩
    · right; right; exact ⟨h.symm, h2⟩
  · left; left; exact h

instance : IsTrans Vod hotGE := by
  constructor
  intro a b c h1 h2
  unfold hotGE at *
  rcases h1 with h1 | ⟨h1e, h1i⟩
  · rcases h2 with h2 | ⟨h2e, h2i⟩
    · exact Or.inl (lt_trans h2 h1)
    · exact Or.inl (h2e ▸ h1)
  · rcases h2 with h2 | ⟨h2e, h2i⟩
    · exact Or.inl (h1e ▸ h2)
    · exact Or.inr ⟨h1e.trans h2e, le_trans h2i h1i⟩

/-- The sorted record list the reconciler queries for one title. -/
def sortHot (l : List Vod) : List Vod := List.insertionSort hotGE l

/-- The `target_rank` computation: maximum of the positive ranks, `0`
when none is positive. -/
def targetRankOf (records : List Vod) : Int :=
  records.foldl (fun t r => if 0 < r.hot_rank then max t r.hot_rank else t) 0

/-- `SELECT DISTINCT vod_name FROM sc_vod WHERE hot_rank > 0`, in first
occurrence order. -/
def hotNames (db : DB) : List String :=
  db.vod.foldl
    (fun ns v =>
      if 0 < v.hot_rank then
        if ns.contains v.vod_name then ns else ns ++ [v.vod_name]
      else ns)
    []

/-- One iteration of the reconciler for one title: sort the title's
records, compute the target rank, and when an update is needed zero the
whole title and set the newest record to the target.  Returns whether a
migration happened. -/
def syncName (db : DB) (name : String) : DB × Bool :=
  match sortHot (db.vod.filter (fun v => v.vod_name == name)) with
  | [] => (db, false)
  | newest :: rest =>
    let target := targetRankOf (newest :: rest)
    let needsB := (newest.hot_rank != target) || rest.any (fun r => decide (0 < r.hot_rank))
    if needsB then
      let v1 := db.vod.map (fun v => if v.vod_name == name then { v with hot_rank := 0 } else v)
      let v2 := v1.map (fun v => if v.vod_id == newest.vod_id then { v with hot_rank := target } else v)
      ({ db with vod := v2 }, true)
    else (db, false)

/-- `sync_hot_rank_to_new_records`: reconcile every hot title; returns
the database and the migrated count.  (The embedded table always has the
`hot_rank` column, so the PRAGMA guard's skip branch does not arise.) -/
def sync_hot_rank_to_new_records (db : DB) : DB × Nat :=
  (hotNames db).foldl
    (fun acc n =>
      let r := syncName acc.1 n
      (r.1, acc.2 + (if r.2 then 1 else 0)))
    (db, 0)

/-! ## collector.py — fetchers (network modelled by attempt oracles) -/

/-- What one HTTP attempt can produce: a transport error
(`requests.exceptions.RequestException`), a payload that fails JSON
decoding, or a decoded response. -/
inductive FetchAttempt where
  | transportErr : FetchAttempt
  | decodeErr : FetchAttempt
  | ok : ApiResp → FetchAttempt
deriving DecidableEq

/-- The observable outcome of one fetcher call: the returned payload,
how many HTTP attempts were made, and the back-off delays slept (in
seconds, in order). -/
structure FetchResult where
  payload : Option ApiResp
  attemptsMade : Nat
  delays : List Nat
deriving DecidableEq

/-- `fetch_data_from_source` (the `ac=list` endpoint): a single HTTP
attempt; every failure — transport or JSON decode — returns `None`
immediately (the commented-out retry intent in the source notes the
function "should return None to indicate failure"). -/
def fetch_data_from_source (attempts : Nat → FetchAttempt) : FetchResult :=
  match attempts 0 with
  | .ok d => { payload := some d, attemptsMade := 1, delays := [] }
  | _ => { payload := none, attemptsMade := 1, delays := [] }

/-- The retry loop of `fetch_detail_data_from_source`
(`for attempt in range(max_retries)` with `base_delay * 2 ** attempt`
waits between attempts): `remaining` counts the attempts left. -/
def detailLoop (fmt : String) (attempts : Nat → FetchAttempt) :
    Nat → Nat → List Nat → FetchResult
  | 0, attempt, delays => { payload := none, attemptsMade := attempt, delays := delays }
  | remaining + 1, attempt, delays =>
    match attempts attempt with
    | .ok d =>
      if fmt == "json" then { payload := some d, attemptsMade := attempt + 1, delays := delays }
      else { payload := none, attemptsMade := attempt + 1, delays := delays }
    | _ =>
      if remaining == 0 then { payload := none, attemptsMade := attempt + 1, delays := delays }
      else detailLoop fmt attempts remaining (attempt + 1) (delays ++ [2 * 2 ^ attempt])

/-- `fetch_detail_data_from_source` (the `ac=detail` endpoint):
`max_retries = 3`, `base_delay = 2`; an empty id list returns `None`
without any attempt. -/
def fetch_detail_data_from_source (fmt : String) (vod_ids : List String)
    (attempts : Nat → FetchAttempt) : FetchResult :=
  if vod_ids.isEmpty then { payload := none, attemptsMade := 0, delays := [] }
  else detailLoop fmt attempts 3 0 []

/-! ## collector.py — classifier + ingestor (`parse_and_insert_vod_data`) -/

/-- `mapping.get(remote_type_id)`. -/
def mappingLookup (m : List (String × Int)) (k : String) : Option Int :=
  (m.find? (fun p => p.1 == k)).map (fun p => p.2)

/-- The `sc_vod` row built for one mapped raw record (the tuple of the
`INSERT OR REPLACE` statement, including the `wjm3u8`/`mtm3u8`
play-source normalisation and the `vod_time` fallback to now). -/
def ingestRow (src : Source) (now : Int) (raw : RawVod) (vod_type_id : Int)
    (newId : Nat) : Vod :=
  { vod_id := newId, res_unique_id := src.resIdPrefix ++ raw.vod_id,
    res_source_id := src.res_source_id, vod_name := pyStrip raw.vod_name,
    vod_en := raw.vod_en, vod_type_id := vod_type_id, vod_pic := raw.vod_pic,
    vod_remarks := raw.vod_remarks, vod_blurb := raw.vod_blurb,
    vod_play_url := raw.vod_play_url,
    vod_play_from :=
      if raw.vod_play_from == "" then raw.vod_play_from
      else pyReplace (pyReplace raw.vod_play_from "wjm3u8" "wj") "mtm3u8" "mt",
    vod_actor := raw.vod_actor, vod_director := raw.vod_director,
    vod_year := raw.vod_year, vod_area := raw.vod_area, vod_lang := raw.vod_lang,
    vod_class := raw.vod_class, vod_time := raw.vod_time.getD now,
    vod_time_hits := raw.vod_time_hits, vod_hits := raw.vod_hits, hot_rank := 0 }

/-- The `INSERT OR REPLACE` of one mapped record plus its search row:
the conflicting `sc_vod` row (same `res_unique_id`) is deleted and the
record re-inserted under the fresh autoincrement id; the search row is
replaced by key `vod_id`. -/
def ingestReplace (src : Source) (now : Int) (db : DB) (raw : RawVod)
    (vod_type_id : Int) : DB :=
  { db with
    vod := db.vod.filter (fun v => v.res_unique_id != src.resIdPrefix ++ raw.vod_id)
      ++ [ingestRow src now raw vod_type_id db.nextVodId],
    search := db.search.filter (fun e => e.1 != db.nextVodId)
      ++ [(db.nextVodId, pyStrip (pyStrip raw.vod_name ++ " " ++ raw.vod_actor))],
    nextVodId := db.nextVodId + 1 }

/-- Process one raw record of a list payload: basic-field check, strict
category mapping (an unmapped record is dropped and the skip counter
incremented), and the replace-insert of mapped records.  The
accumulator is `(db, insert_count, skip_count)`. -/
def ingestOne (src : Source) (now : Int) (acc : DB × Nat × Nat) (raw : RawVod) :
    DB × Nat × Nat :=
  if raw.vod_id == "" || pyStrip raw.vod_name == "" then acc
  else
    match mappingLookup src.res_mapping raw.type_id with
    | none => (acc.1, acc.2.1, acc.2.2 + 1)
    | some vod_type_id => (ingestReplace src now acc.1 raw vod_type_id, acc.2.1 + 1, acc.2.2)

/-- `parse_and_insert_vod_data`: an empty (or unparsable) category
mapping skips the whole payload; otherwise each raw record is ingested
in order.  Returns `(db, insert_count, skip_count)`. -/
def parse_and_insert_vod_data (db : DB) (src : Source) (vod_list : List RawVod)
    (now : Int) : DB × Nat × Nat :=
  if src.res_mapping.isEmpty then (db, 0, 0)
  else vod_list.foldl (ingestOne src now) (db, 0, 0)

/-! ## collector.py — pagination driver (`collect_from_source`) -/

/-- Why one source's list collection stopped. -/
inductive StopReason where
  | emptyList : StopReason
  | pageLimit : StopReason
  | lastPage : StopReason
deriving DecidableEq

/-- The outcome of processing one successfully fetched page: stop with a
reason, or advance to the next page. -/
inductive PageOutcome where
  | stop : DB → Nat → StopReason → PageOutcome
  | next : DB → Nat → PageOutcome
deriving DecidableEq

/-- The body of the collection loop run on a successfully fetched page
(`data` with `code == 1`): empty list stops, otherwise ingest, then the
`page >= max_pages` check, then the reported
`current_page >= pagecount` check (with the `.get` defaults `page` and
`1`). -/
def handlePage (src : Source) (now : Int) (maxPages : Int) (page : Int) (db : DB)
    (cnt : Nat) (data : ApiResp) : PageOutcome :=
  if data.list.isEmpty then .stop db cnt .emptyList
  else
    let r := parse_and_insert_vod_data db src data.list now
    let cnt' := cnt + r.2.1
    if maxPages ≤ page then .stop r.1 cnt' .pageLimit
    else
      let current := data.page.getD page
      let total := data.pagecount.getD 1
      if total ≤ current then .stop r.1 cnt' .lastPage
      else .next r.1 cnt'

/-- How one source's collection ended: the pre-loop info fetch failed,
the fuel ran out (the real loop would still be running), or the loop
stopped for a reason. -/
inductive CollectOutcome where
  | noInfo : CollectOutcome
  | fuelOut : CollectOutcome
  | stopped : StopReason → CollectOutcome
deriving DecidableEq

/-- The `while True` collection loop of `collect_from_source`, driven by
a per-page oracle (`oracle p` is what `fetch_data_from_source` returns
for page `p`).  Page 1 reuses the cached `first_page_data`; a fetch
failure or a `code != 1` response skips the page (`page += 1; continue`)
without touching the database.  `log` records the pages actually
requested over HTTP.  Returns `(db, total_count, log, outcome)`. -/
def collectLoop (src : Source) (oracle : Int → Option ApiResp) (firstPage : ApiResp)
    (maxPages : Int) (now : Int) :
    Nat → DB → Int → Nat → List Int → DB × Nat × List Int × Option StopReason
  | 0, db, _, cnt, log => (db, cnt, log, none)
  | fuel + 1, db, page, cnt, log =>
    if page == 1 then
      match handlePage src now maxPages page db cnt firstPage with
      | .stop db' c r => (db', c, log, some r)
      | .next db' c => collectLoop src oracle firstPage maxPages now fuel db' (page + 1) c log
    else
      let log' := log ++ [page]
      match oracle page with
      | none => collectLoop src oracle firstPage maxPages now fuel db (page + 1) cnt log'
      | some data =>
        if data.code == 1 then
          match handlePage src now maxPages page db cnt data with
          | .stop db' c r => (db', c, log', some r)
          | .next db' c => collectLoop src oracle firstPage maxPages now fuel db' (page + 1) c log'
        else collectLoop src oracle firstPage maxPages now fuel db (page + 1) cnt log'

/-- `collect_from_source` in the non-interactive full path
(`auto_confirm`, whole page range): fetch page 1; give up (`return 0`)
unless it decodes with `code == 1`; set
`max_pages = first_page_data.get('pagecount', 1)`; then run the loop
from page 1.  Returns `(db, total_count, fetched_pages, outcome)`. -/
def collect_from_source (db : DB) (src : Source) (oracle : Int → Option ApiResp)
    (now : Int) (fuel : Nat) : DB × Nat × List Int × CollectOutcome :=
  match oracle 1 with
  | none => (db, 0, [1], .noInfo)
  | some firstPage =>
    if firstPage.code == 1 then
      let maxPages := firstPage.pagecount.getD 1
      let r := collectLoop src oracle firstPage maxPages now fuel db 1 0 [1]
      (r.1, r.2.1, r.2.2.1, match r.2.2.2 with
        | none => .fuelOut
        | some reason => .stopped reason)
    else (db, 0, [1], .noInfo)

/-! ## collector.py — detail enrichment -/

/-- Split a list into consecutive chunks of size `n` (the
`batch_size = 20` grouping); fuel-indexed helper. -/
def chunkedAux (n : Nat) : Nat → List α → List (List α)
  | 0, _ => []
  | _ + 1, [] => []
  | fuel + 1, l => l.take n :: chunkedAux n fuel (l.drop n)

/-- `remote_ids[i:i+batch_size]` batching. -/
def chunked (n : Nat) (l : List α) : List (List α) := chunkedAux n l.length l

/-- `update_vod_with_detail`: for each returned detail record, update
the matching `sc_vod` row (by `res_unique_id`) and, when a row matched,
rewrite its `sc_search` text to `f"{vod_name} {vod_actor}".strip()`.
Returns the updated database and the update count. -/
def update_vod_with_detail (db : DB) (src : Source) (detail_list : List RawVod) :
    DB × Nat :=
  detail_list.foldl
    (fun acc raw =>
      let db := acc.1
      if raw.vod_id == "" then acc
      else
        let res_unique_id := src.resIdPrefix ++ raw.vod_id
        match db.vod.find? (fun v => v.res_unique_id == res_unique_id) with
        | none => acc
        | some hit =>
          let vod' := db.vod.map (fun v =>
            if v.res_unique_id == res_unique_id then
              { v with
                vod_en := raw.vod_en, vod_pic := raw.vod_pic,
                vod_play_url := raw.vod_play_url, vod_actor := raw.vod_actor,
                vod_director := raw.vod_director, vod_blurb := raw.vod_blurb,
                vod_year := raw.vod_year, vod_area := raw.vod_area,
                vod_lang := raw.vod_lang, vod_class := raw.vod_class,
                vod_time_hits := raw.vod_time_hits }
            else v)
          let search_text := pyStrip (raw.vod_name ++ " " ++ raw.vod_actor)
          let search' := db.search.map (fun e =>
            if e.1 == hit.vod_id then (e.1, search_text) else e)
          ({ db with vod := vod', search := search' }, acc.2 + 1))
    (db, 0)

/-- `collect_details_for_source`: select this source's rows with empty
playback data, strip the id prefix, batch by 20, fetch each batch
through the retrying detail fetcher (`batchAttempts i` is the attempt
oracle of batch `i`), and merge successful batches back.  A failed
batch (no payload or `code != 1`) is skipped.  Returns the database,
the update count and the batches requested. -/
def collect_details_for_source (db : DB) (src : Source)
    (batchAttempts : Nat → Nat → FetchAttempt) : DB × Nat × List (List String) :=
  let uids := (db.vod.filter
    (fun v => v.res_source_id == src.res_source_id && v.vod_play_url == "")).map
      (fun v => v.res_unique_id)
  if uids.isEmpty then (db, 0, [])
  else
    let remote_ids := uids.map (fun u => u.drop src.resIdPrefix.length)
    let batches := chunked 20 remote_ids
    let r := batches.foldl
      (fun (acc : DB × Nat × Nat) batch =>
        let fr := fetch_detail_data_from_source src.data_format batch
          (batchAttempts acc.2.2)
        match fr.payload with
        | some d =>
          if d.code == 1 then
            let u := update_vod_with_detail acc.1 src d.list
            (u.1, acc.2.1 + u.2, acc.2.2 + 1)
          else (acc.1, acc.2.1, acc.2.2 + 1)
        | none => (acc.1, acc.2.1, acc.2.2 + 1))
      (db, 0, 0)
    (r.1, r.2.1, batches)

/-! ## collector.py — snapshot publisher (`swap_database_files`) -/

/-- A rotating backup file `sc_main.db.{timestamp}.bak`: the timestamp
in its name, its contents, and its filesystem mtime (`shutil.copy2`
preserves the source's mtime). -/
structure Backup where
  ts : Int
  content : DB
  mtime : Int
deriving DecidableEq

/-- The on-disk state the publisher manipulates: the Working snapshot
(`TEMP_DB`), the Published snapshot (`MAIN_DB`) — each with content and
mtime — and the backup files. -/
structure World where
  temp : Option (DB × Int)
  main : Option (DB × Int)
  backups : List Backup
deriving DecidableEq

/-- `cleanup_old_backups`: keep the `keep_count` most recent backups by
mtime (`sort(key=getmtime, reverse=True)`), delete the rest; when there
are at most `keep_count` files nothing is touched. -/
def cleanup_old_backups (backups : List Backup) (keep_count : Nat) : List Backup :=
  if keep_count < backups.length then
    (List.insertionSort (fun a b : Backup => b.mtime ≤ a.mtime) backups).take keep_count
  else backups

/-- `swap_database_files`: fail when the Working snapshot is absent;
otherwise back up the Published snapshot (if present) to a timestamped
copy (`copy2` keeps its mtime), move Working over Published, and prune
backups to the most recent one. -/
def swap_database_files (w : World) (now : Int) : World × Bool :=
  match w.temp with
  | none => (w, false)
  | some t =>
    let backups1 := match w.main with
      | some m => { ts := now, content := m.1, mtime := m.2 } :: w.backups
      | none => w.backups
    ({ temp := none, main := some t, backups := cleanup_old_backups backups1 1 }, true)

/-! ## collector.py — the run driver (`run_collection`, `--mode full --yes`) -/

/-- A network contact the run makes: a list-page request or a detail
batch request, tagged with the source's position in the config list. -/
inductive Contact where
  | listPage : Nat → Int → Contact
  | detailBatch : Nat → List String → Contact
deriving DecidableEq

/-- How a run ended.  `noMain` models the uncaught
`sqlite3.OperationalError` raised when `MAIN_DB` is absent while
reading `sc_config`; `hung` models the loop running out of fuel (the
real process would still be looping). -/
inductive RunOutcome where
  | lockBusy : RunOutcome
  | noMain : RunOutcome
  | noSources : RunOutcome
  | hung : RunOutcome
  | done : Nat → Nat → Nat → RunOutcome
deriving DecidableEq

/-- The list phase over all sources: fold `collect_from_source`,
accumulating the total count, the contact log, and whether some
source's loop ran out of fuel. -/
def listPhase (sources : List Source) (listO : Nat → Int → Nat → FetchAttempt)
    (now : Int) (fuel : Nat) (db0 : DB) : DB × Nat × List Contact × Bool :=
  (sources.enum.foldl
    (fun (acc : DB × Nat × List Contact × Bool) si =>
      if acc.2.2.2 then acc
      else
        let oracle : Int → Option ApiResp := fun p =>
          (fetch_data_from_source (listO si.1 p)).payload
        let r := collect_from_source acc.1 si.2 oracle now fuel
        (r.1, acc.2.1 + r.2.1,
          acc.2.2.1 ++ r.2.2.1.map (fun p => Contact.listPage si.1 p),
          acc.2.2.2 || (r.2.2.2 == CollectOutcome.fuelOut)))
    (db0, 0, [], false))

/-- The detail phase over all sources. -/
def detailPhase (sources : List Source) (detailO : Nat → Nat → Nat → FetchAttempt)
    (db0 : DB) : DB × Nat × List Contact :=
  (sources.enum.foldl
    (fun (acc : DB × Nat × List Contact) si =>
      let r := collect_details_for_source acc.1 si.2 (detailO si.1)
      (r.1, acc.2.1 + r.2.1,
        acc.2.2 ++ r.2.2.map (fun b => Contact.detailBatch si.1 b)))
    (db0, 0, []))

/-- The body of `run_collection` once the lock is held (mode `full`,
`--yes`): prepare the Working snapshot (keep it, copy Published, or
initialise fresh), read the sources from Published, run the list phase,
the detail phase (only when something was collected), the hot-rank
sync, the auto-merge (only when something changed), and finally the
snapshot swap (only when any count is nonzero). -/
def runLocked (w : World) (listO : Nat → Int → Nat → FetchAttempt)
    (detailO : Nat → Nat → Nat → FetchAttempt) (now : Int) (fuel : Nat) :
    World × RunOutcome × List Contact :=
  let temp0 : DB := match w.temp with
    | some t => t.1
    | none => match w.main with
      | some m => m.1
      | none => initDB
  match w.main with
  | none => ({ w with temp := some (temp0, now) }, .noMain, [])
  | some m =>
    let sources := m.1.config
    if sources.isEmpty then ({ w with temp := some (temp0, now) }, .noSources, [])
    else
      let lp := listPhase sources listO now fuel temp0
      let total_collected := lp.2.1
      if lp.2.2.2 then ({ w with temp := some (lp.1, now) }, .hung, lp.2.2.1)
      else
        let dp := if 0 < total_collected then detailPhase sources detailO lp.1
          else (lp.1, 0, [])
        let detail_total := dp.2.1
        let sy := sync_hot_rank_to_new_records dp.1
        let migrated := sy.2
        let db1 := if 0 < total_collected || 0 < detail_total then (auto_merge sy.1 now).1
          else sy.1
        let w1 : World := { w with temp := some (db1, now) }
        let w2 := if 0 < total_collected || 0 < detail_total || 0 < migrated then
            (swap_database_files w1 now).1
          else w1
        (w2, .done total_collected detail_total migrated, lp.2.2.1 ++ dp.2.2)

/-- `run_collection`: acquire the non-blocking run lock; when another
instance holds it (`lockFree = false`) return at once — no snapshot is
touched and no network contact is made. -/
def run_collection (lockFree : Bool) (w : World) (listO : Nat → Int → Nat → FetchAttempt)
    (detailO : Nat → Nat → Nat → FetchAttempt) (now : Int) (fuel : Nat) :
    World × RunOutcome × List Contact :=
  if lockFree then runLocked w listO detailO now fuel
  else (w, .lockBusy, [])

/-! ## Claim C9 — lock busy aborts with no work -/

/-- C9: when the run lock is already held by another instance, the
pipeline invocation aborts immediately: the on-disk world (Working
snapshot, Published snapshot, backups) is returned unchanged and the
network contact log is empty — no source is contacted and no partial
work is attempted. -/
theorem claim9_lock_busy_aborts (w : World) (listO : Nat → Int → Nat → FetchAttempt)
    (detailO : Nat → Nat → Nat → FetchAttempt) (now : Int) (fuel : Nat) :
    run_collection false w listO detailO now fuel = (w, RunOutcome.lockBusy, []) := rfl

/-! ## Claim C4 — retry policy of the fetchers -/

/-- An empty decoded response used by concrete fetch scenarios. -/
def respEmpty : ApiResp :=
  { code := 1, page := none, pagecount := none, total := none, limit := none, list := [] }

/-- The attempt pattern of the spec's backoff scenario: two transport
errors, then success. -/
def attemptsFFS : Nat → FetchAttempt :=
  fun n => if n < 2 then .transportErr else .ok respEmpty

/-- C4 (counterexample): the list endpoint is not retried.  Under the
claim's scenario — first two requests fail with transport errors, the
third would succeed — `fetch_data_from_source` returns failure after a
single attempt with no delays, instead of the claimed two delayed
retries followed by success. -/
theorem claim4_list_no_retry_counterexample :
    attemptsFFS 0 = FetchAttempt.transportErr ∧
    attemptsFFS 1 = FetchAttempt.transportErr ∧
    attemptsFFS 2 = FetchAttempt.ok respEmpty ∧
    fetch_data_from_source attemptsFFS =
      { payload := none, attemptsMade := 1, delays := [] } :=
  ⟨rfl, rfl, rfl, rfl⟩

/-- C4 (amended): the bounded retry policy (3 attempts total, delays of
2s then 4s between attempts, none after the final attempt) applies to
the detail endpoint only; the list endpoint makes exactly one attempt,
sleeps no delay, and surfaces any transport or decode failure
immediately. -/
theorem claim4_retry_policy (attempts : Nat → FetchAttempt) (ids : List String)
    (d : ApiResp) (hids : ids ≠ []) :
    ((attempts 0 = .transportErr ∨ attempts 0 = .decodeErr) →
      (attempts 1 = .transportErr ∨ attempts 1 = .decodeErr) →
      attempts 2 = .ok d →
      fetch_detail_data_from_source "json" ids attempts =
        { payload := some d, attemptsMade := 3, delays := [2, 4] }) ∧
    ((∀ n, n < 3 → attempts n = .transportErr ∨ attempts n = .decodeErr) →
      fetch_detail_data_from_source "json" ids attempts =
        { payload := none, attemptsMade := 3, delays := [2, 4] }) ∧
    (attempts 0 = .ok d →
      fetch_detail_data_from_source "json" ids attempts =
        { payload := some d, attemptsMade := 1, delays := [] }) ∧
    (fetch_data_from_source attempts).attemptsMade = 1 ∧
    (fetch_data_from_source attempts).delays = [] ∧
    ((attempts 0 = .transportErr ∨ attempts 0 = .decodeErr) →
      (fetch_data_from_source attempts).payload = none) := by
  have hne : ids.isEmpty = false := by
    cases ids with
    | nil => exact absurd rfl hids
    | cons a l => rfl
  refine ⟨?_, ?_, ?_, ?_, ?_, ?_⟩
  · intro h0 h1 h2
    simp only [fetch_detail_data_from_source, hne, Bool.false_eq_true, if_false]
    rcases h0 with h0 | h0 <;> rcases h1 with h1 | h1 <;>
      simp [detailLoop, h0, h1, h2]
  · intro hall
    have h0 := hall 0 (by omega)
    have h1 := hall 1 (by omega)
    have h2 := hall 2 (by omega)
    simp only [fetch_detail_data_from_source, hne, Bool.false_eq_true, if_false]
    rcases h0 with h0 | h0 <;> rcases h1 with h1 | h1 <;> rcases h2 with h2 | h2 <;>
      simp [detailLoop, h0, h1, h2]
  · intro h0
    simp only [fetch_detail_data_from_source, hne, Bool.false_eq_true, if_false]
    simp [detailLoop, h0]
  · cases h : attempts 0 <;> simp [fetch_data_from_source, h]
  · cases h : attempts 0 <;> simp [fetch_data_from_source, h]
  · intro h0
    rcases h0 with h0 | h0 <;> simp [fetch_data_from_source, h0]

/-- C4 witness: the amended detail-endpoint behaviour at the concrete
fail/fail/succeed attempt pattern. -/
theorem claim4_retry_policy_witness :
    fetch_detail_data_from_source "json" ["1"] attemptsFFS =
      { payload := some respEmpty, attemptsMade := 3, delays := [2, 4] } :=
  (claim4_retry_policy attemptsFFS ["1"] respEmpty (by decide)).1
    (Or.inl rfl) (Or.inl rfl) rfl

/-! ## Claim C3 — ingestion idempotence (code bug: search-row orphan) -/

/-- A minimal valid raw list record (remote id `1`, title `Foo`,
remote category `10`). -/
def rawFoo : RawVod :=
  { vod_id := "1", vod_name := "Foo", type_id := "10", vod_en := "", vod_pic := "",
    vod_remarks := "", vod_blurb := "", vod_actor := "", vod_director := "",
    vod_play_url := "", vod_play_from := "", vod_year := "2024", vod_area := "",
    vod_lang := "", vod_class := "", vod_time := some 100, vod_time_hits := 0,
    vod_hits := 0 }

/-- A source with prefix `wj_` mapping remote category `10` to local
category `6`. -/
def srcWj : Source :=
  { res_source_id := 1, res_name := "wjsrc", res_url := "u", data_format := "json",
    resIdPrefix := "wj_", res_mapping := [("10", 6)], operation_mode := "add_update" }

/-- The store after ingesting `[rawFoo]` once into a fresh database. -/
def ingestedOnce : DB :=
  (parse_and_insert_vod_data { initDB with config := [srcWj] } srcWj [rawFoo] 0).1

/-- The store after ingesting the identical payload a second time. -/
def ingestedTwice : DB := (parse_and_insert_vod_data ingestedOnce srcWj [rawFoo] 0).1

/-- C3: ingesting the identical upstream payload twice does not yield an
identical canonical store.  The second `INSERT OR REPLACE` deletes the
conflicting row and re-inserts it under a fresh autoincrement `vod_id`
(1 becomes 2), and the search row keyed by the old `vod_id` is never
deleted: the record table ends with one row but the search table with
two, one of them orphaned — the claimed idempotence and one-to-one
record/search lockstep both fail. -/
theorem claim3_ingest_not_idempotent :
    ingestedTwice ≠ ingestedOnce ∧
    ingestedOnce.vod.map (fun v => v.vod_id) = [1] ∧
    ingestedTwice.vod.map (fun v => v.vod_id) = [2] ∧
    ingestedOnce.search = [(1, "Foo")] ∧
    ingestedTwice.search = [(1, "Foo"), (2, "Foo")] ∧
    (∃ e ∈ ingestedTwice.search, ∀ v ∈ ingestedTwice.vod, v.vod_id ≠ e.1) := by
  decide

/-! ## Claim C8 — snapshot publish behaviour -/

/-- The backup list sorted most-recent-first by mtime, as
`cleanup_old_backups` sorts it. -/
def sortBackups (l : List Backup) : List Backup :=
  List.insertionSort (fun a b : Backup => b.mtime ≤ a.mtime) l

theorem cleanup_eq_sort (l : List Backup) (k : Nat) (h : k < l.length) :
    cleanup_old_backups l k = (sortBackups l).take k := by
  simp [cleanup_old_backups, sortBackups, h]

instance : IsTotal Backup (fun a b : Backup => b.mtime ≤ a.mtime) :=
  ⟨fun a b => Int.le_total b.mtime a.mtime⟩

instance : IsTrans Backup (fun a b : Backup => b.mtime ≤ a.mtime) :=
  ⟨fun _ _ _ h1 h2 => le_trans h2 h1⟩

/-- The head of the mtime-sorted backup list has maximal mtime. -/
theorem sortBackups_head_max (l : List Backup) (b : Backup) (t : List Backup)
    (h : sortBackups l = b :: t) : ∀ x ∈ l, x.mtime ≤ b.mtime := by
  intro x hx
  have hs : List.Sorted (fun a b : Backup => b.mtime ≤ a.mtime) (sortBackups l) :=
    List.sorted_insertionSort _ l
  have hperm : (sortBackups l).Perm l := List.perm_insertionSort _ l
  have hx' : x ∈ sortBackups l := hperm.mem_iff.mpr hx
  rw [h] at hx' hs
  rcases List.mem_cons.mp hx' with he | he
  · rw [he]
  · exact List.rel_of_sorted_cons hs x he

/-- C8: publish behaviour of `swap_database_files`.
(1) With no Working snapshot, publish fails and the world — in
particular the Published snapshot — is untouched.  (2) With a Working
snapshot and an existing Published snapshot, the Published snapshot is
copied to a backup stamped `now` (keeping its mtime, as `copy2` does)
and then replaced by the Working snapshot via a move, after which the
backups are pruned to one.  (3) Any successful publish leaves at most
one backup.  (4) When the fresh backup is the most recent (the old
Published snapshot is newer than every existing backup — the normal
monotone-run case), exactly that single most recent backup survives:
all others are deleted. -/
theorem claim8_publish_behavior (w : World) (now : Int) :
    (w.temp = none → swap_database_files w now = (w, false)) ∧
    (∀ t m, w.temp = some t → w.main = some m →
      swap_database_files w now =
        ({ temp := none, main := some t,
           backups := cleanup_old_backups
             ({ ts := now, content := m.1, mtime := m.2 } :: w.backups) 1 }, true)) ∧
    (∀ t, w.temp = some t → (swap_database_files w now).1.backups.length ≤ 1) ∧
    (∀ t m, w.temp = some t → w.main = some m →
      (∀ b ∈ w.backups, b.mtime < m.2) →
      (swap_database_files w now).1.backups =
        [{ ts := now, content := m.1, mtime := m.2 }]) := by
  refine ⟨?_, ?_, ?_, ?_⟩
  · intro h
    simp [swap_database_files, h]
  · intro t m ht hm
    simp [swap_database_files, ht, hm]
  · intro t ht
    simp only [swap_database_files, ht]
    cases hm : w.main with
    | none =>
      simp only [cleanup_old_backups, sortBackups]
      split
      · next h => rw [List.length_take]; omega
      · next h => omega
    | some m =>
      simp only [cleanup_old_backups, sortBackups]
      split
      · next h => rw [List.length_take]; omega
      · next h => omega
  · intro t m ht hm hmono
    simp only [swap_database_files, ht, hm]
    set nb : Backup := { ts := now, content := m.1, mtime := m.2 } with hnb
    by_cases hb : w.backups = []
    · simp [cleanup_old_backups, hb]
    · have hpos : 0 < w.backups.length := List.length_pos.mpr hb
      have hlen : 1 < (nb :: w.backups).length := by
        rw [List.length_cons]
        omega
      rw [cleanup_eq_sort _ 1 hlen]
      have hperm : (sortBackups (nb :: w.backups)).Perm (nb :: w.backups) :=
        List.perm_insertionSort _ _
      have hne : sortBackups (nb :: w.backups) ≠ [] := by
        intro hq
        have hl := hperm.length_eq
        rw [hq] at hl
        rw [List.length_cons] at hl
        simp at hl
      cases hs : sortBackups (nb :: w.backups) with
      | nil => exact absurd hs hne
      | cons h0 tl =>
        have hmax := sortBackups_head_max _ _ _ hs
        have hmem : h0 ∈ nb :: w.backups := by
          have hin : h0 ∈ sortBackups (nb :: w.backups) := by
            rw [hs]
            exact List.mem_cons_self _ _
          exact hperm.mem_iff.mp hin
        have h0nb : h0 = nb := by
          rcases List.mem_cons.mp hmem with h | h
          · exact h
          · exfalso
            have h1 : h0.mtime < m.2 := hmono h0 h
            have h2 : nb.mtime ≤ h0.mtime := hmax nb (List.mem_cons_self _ _)
            rw [hnb] at h2
            exact absurd (lt_of_le_of_lt h2 h1) (lt_irrefl _)
        simp [h0nb]

/-- C8 witness: a concrete world with a Working snapshot, a Published
snapshot newer than its single stale backup. -/
def worldW8 : World :=
  { temp := some (initDB, 10),
    main := some ({ initDB with nextVodId := 7 }, 8),
    backups := [{ ts := 1, content := initDB, mtime := 3 }] }

theorem claim8_publish_behavior_witness :
    (swap_database_files worldW8 20).1.backups =
      [{ ts := 20, content := { initDB with nextVodId := 7 }, mtime := 8 }] :=
  (claim8_publish_behavior worldW8 20).2.2.2 (initDB, 10)
    ({ initDB with nextVodId := 7 }, 8) rfl rfl (by decide)

/-! ## Claim C7 — strict category mapping -/

/-- The basic-field check of the ingest loop: nonempty remote id and
nonempty stripped title. -/
def rawBasicOk (r : RawVod) : Bool := r.vod_id != "" && pyStrip r.vod_name != ""

/-- A raw record that passes the basic check but has no mapping entry. -/
def rawUnmapped (src : Source) (r : RawVod) : Bool :=
  rawBasicOk r && (mappingLookup src.res_mapping r.type_id).isNone

/-- A raw record that passes the basic check and has a mapping entry
(only these create or replace canonical records). -/
def rawMapped (src : Source) (r : RawVod) : Bool :=
  rawBasicOk r && (mappingLookup src.res_mapping r.type_id).isSome

theorem ingestOne_invalid (src : Source) (now : Int) (acc : DB × Nat × Nat)
    (raw : RawVod) (h : (raw.vod_id == "" || pyStrip raw.vod_name == "") = true) :
    ingestOne src now acc raw = acc := by
  simp only [ingestOne]
  rw [if_pos h]

theorem ingestOne_unmapped (src : Source) (now : Int) (acc : DB × Nat × Nat)
    (raw : RawVod) (h : ¬(raw.vod_id == "" || pyStrip raw.vod_name == "") = true)
    (hmap : mappingLookup src.res_mapping raw.type_id = none) :
    ingestOne src now acc raw = (acc.1, acc.2.1, acc.2.2 + 1) := by
  simp only [ingestOne]
  rw [if_neg h, hmap]

theorem ingestOne_mapped (src : Source) (now : Int) (acc : DB × Nat × Nat)
    (raw : RawVod) (ty : Int)
    (h : ¬(raw.vod_id == "" || pyStrip raw.vod_name == "") = true)
    (hmap : mappingLookup src.res_mapping raw.type_id = some ty) :
    ingestOne src now acc raw =
      (ingestReplace src now acc.1 raw ty, acc.2.1 + 1, acc.2.2) := by
  simp only [ingestOne]
  rw [if_neg h, hmap]

theorem rawBasicOk_of_not_skip (r : RawVod)
    (h1 : ¬(r.vod_id == "" || pyStrip r.vod_name == "") = true) :
    rawBasicOk r = true := by
  simp only [Bool.or_eq_true_iff] at h1
  push_neg at h1
  simp only [rawBasicOk, Bool.and_eq_true, bne_iff_ne, ne_eq]
  exact ⟨fun hq => h1.1 (by simp [hq]), fun hq => h1.2 (by simp [hq])⟩

theorem ingest_fold_skip_count (src : Source) (now : Int) (L : List RawVod)
    (db : DB) (i s : Nat) :
    (L.foldl (ingestOne src now) (db, i, s)).2.2 =
      s + (L.filter (rawUnmapped src)).length := by
  induction L generalizing db i s with
  | nil => simp
  | cons r t ih =>
    simp only [List.foldl_cons]
    by_cases h1 : (r.vod_id == "" || pyStrip r.vod_name == "") = true
    · have hu : rawUnmapped src r = false := by
        rcases Bool.or_eq_true_iff.mp h1 with h | h
        · simp [rawUnmapped, rawBasicOk, bne, h]
        · simp [rawUnmapped, rawBasicOk, bne, h]
      rw [ingestOne_invalid src now _ r h1, ih]
      simp [List.filter_cons, hu]
    · cases hmap : mappingLookup src.res_mapping r.type_id with
      | none =>
        have hu : rawUnmapped src r = true := by
          simp [rawUnmapped, rawBasicOk_of_not_skip r h1, hmap]
        rw [ingestOne_unmapped src now _ r h1 hmap, ih]
        simp only [List.filter_cons, hu, if_true, List.length_cons]
        omega
      | some ty =>
        have hu : rawUnmapped src r = false := by simp [rawUnmapped, hmap]
        rw [ingestOne_mapped src now _ r ty h1 hmap, ih]
        simp [List.filter_cons, hu]

theorem ingest_fold_identities (src : Source) (now : Int) (L : List RawVod)
    (db : DB) (i s : Nat) (u : String)
    (hdb : ∀ v ∈ db.vod, v.res_unique_id ≠ u)
    (hL : ∀ r ∈ L, rawMapped src r = true → src.resIdPrefix ++ r.vod_id ≠ u) :
    ∀ v ∈ (L.foldl (ingestOne src now) (db, i, s)).1.vod, v.res_unique_id ≠ u := by
  induction L generalizing db i s with
  | nil => simpa using hdb
  | cons r t ih =>
    simp only [List.foldl_cons]
    by_cases h1 : (r.vod_id == "" || pyStrip r.vod_name == "") = true
    · rw [ingestOne_invalid src now _ r h1]
      exact ih db i s hdb (fun x hx hm => hL x (List.mem_cons_of_mem r hx) hm)
    · cases hmap : mappingLookup src.res_mapping r.type_id with
      | none =>
        rw [ingestOne_unmapped src now _ r h1 hmap]
        exact ih db i (s + 1) hdb (fun x hx hm => hL x (List.mem_cons_of_mem r hx) hm)
      | some ty =>
        have hmem : rawMapped src r = true := by
          simp [rawMapped, rawBasicOk_of_not_skip r h1, hmap]
        have hru : src.resIdPrefix ++ r.vod_id ≠ u := hL r (List.mem_cons_self _ _) hmem
        rw [ingestOne_mapped src now _ r ty h1 hmap]
        apply ih
        · intro v hv
          simp only [ingestReplace, List.mem_append, List.mem_filter,
            List.mem_singleton] at hv
          rcases hv with ⟨hv, _⟩ | hv
          · exact hdb v hv
          · rw [hv]
            simpa [ingestRow] using hru
        · intro x hx hm
          exact hL x (List.mem_cons_of_mem r hx) hm

/-- C7 (counterexample): the miss counter is not incremented for every
unmapped raw record.  A record whose remote category (`99`) has no
mapping entry but whose title is empty is skipped by the earlier
basic-field check: after ingestion no record exists (that part of the
claim holds) but the per-source miss counter stays `0`, not `1`. -/
def rawNoName : RawVod :=
  { vod_id := "7", vod_name := "", type_id := "99", vod_en := "", vod_pic := "",
    vod_remarks := "", vod_blurb := "", vod_actor := "", vod_director := "",
    vod_play_url := "", vod_play_from := "", vod_year := "", vod_area := "",
    vod_lang := "", vod_class := "", vod_time := some 0, vod_time_hits := 0,
    vod_hits := 0 }

theorem claim7_miss_counter_counterexample :
    mappingLookup srcWj.res_mapping rawNoName.type_id = none ∧
    (parse_and_insert_vod_data initDB srcWj [rawNoName] 0).2.2 = 0 ∧
    (parse_and_insert_vod_data initDB srcWj [rawNoName] 0).1.vod = [] := by
  decide

/-- C7 (amended): for a source whose mapping table is nonempty, the
per-source miss counter after ingesting a payload equals the number of
raw records that pass the basic-field check (nonempty remote id and
nonempty stripped title) and whose remote category id has no mapping
entry — records failing the basic check are skipped without counting;
and no identity other than those of the mapped basic-valid records is
ever added, so an unmapped record leaves no corresponding canonical
record unless its identity was already in the store or is supplied by a
mapped record of the same payload. -/
theorem claim7_strict_mapping (db : DB) (src : Source) (L : List RawVod) (now : Int)
    (hm : src.res_mapping ≠ []) :
    (parse_and_insert_vod_data db src L now).2.2 =
      (L.filter (rawUnmapped src)).length ∧
    (∀ u : String,
      (∀ v ∈ db.vod, v.res_unique_id ≠ u) →
      (∀ r ∈ L, rawMapped src r = true → src.resIdPrefix ++ r.vod_id ≠ u) →
      ∀ v ∈ (parse_and_insert_vod_data db src L now).1.vod, v.res_unique_id ≠ u) := by
  have hne : src.res_mapping.isEmpty = false := by
    cases hq : src.res_mapping with
    | nil => exact absurd hq hm
    | cons a l => rfl
  constructor
  · simp only [parse_and_insert_vod_data, hne, Bool.false_eq_true, if_false]
    simpa using ingest_fold_skip_count src now L db 0 0
  · intro u hdb hL
    simp only [parse_and_insert_vod_data, hne, Bool.false_eq_true, if_false]
    exact ingest_fold_identities src now L db 0 0 u hdb hL

/-- C7 witness: the amended miss-counter equation for a concrete
payload holding one mapped record, one unmapped record and one record
failing the basic check. -/
theorem claim7_strict_mapping_witness :
    (parse_and_insert_vod_data initDB srcWj
        [rawFoo, { rawFoo with type_id := "99" }, rawNoName] 0).2.2 =
      ([rawFoo, { rawFoo with type_id := "99" }, rawNoName].filter
        (rawUnmapped srcWj)).length :=
  (claim7_strict_mapping initDB srcWj
    [rawFoo, { rawFoo with type_id := "99" }, rawNoName] 0 (by decide)).1

/-! ## Claim C6 — primary selection scoring -/

/-- The running maximum of the scaled scores, seeded with `b`. -/
def maxScoreAcc (b : Int) (l : List Vod) : Int :=
  l.foldl (fun m v => max m (scoreScaled v)) b

/-- The specification-side selection rule: the first candidate, in
iteration order, whose score is maximal. -/
def firstMaxBy (l : List Vod) : Option Vod :=
  l.find? (fun v => l.all (fun u => decide (scoreScaled u ≤ scoreScaled v)))

theorem selStep_snd (b : Option Nat × Int) (v : Vod) :
    (selStep b v).2 = max b.2 (scoreScaled v) := by
  simp only [selStep]
  split <;> omega

theorem maxScoreAcc_init_le (l : List Vod) (b : Int) : b ≤ maxScoreAcc b l := by
  induction l generalizing b with
  | nil => exact le_refl b
  | cons x t ih =>
    simp only [maxScoreAcc, List.foldl_cons]
    exact le_trans (le_max_left _ _) (ih (max b (scoreScaled x)))

theorem maxScoreAcc_ge (l : List Vod) (b : Int) :
    ∀ v ∈ l, scoreScaled v ≤ maxScoreAcc b l := by
  induction l generalizing b with
  | nil => simp
  | cons x t ih =>
    intro v hv
    simp only [maxScoreAcc, List.foldl_cons]
    rcases List.mem_cons.mp hv with h | h
    · subst h
      exact le_trans (le_max_right _ _) (maxScoreAcc_init_le t (max b (scoreScaled v)))
    · exact ih (max b (scoreScaled x)) v h

theorem maxScoreAcc_const (l : List Vod) (b : Int)
    (h : ∀ u ∈ l, scoreScaled u ≤ b) : maxScoreAcc b l = b := by
  induction l with
  | nil => rfl
  | cons x t ih =>
    simp only [maxScoreAcc, List.foldl_cons]
    rw [max_eq_left (h x (List.mem_cons_self _ _))]
    exact ih (fun u hu => h u (List.mem_cons_of_mem x hu))

theorem sel_fold_const (l : List Vod) (b : Option Nat × Int)
    (h : ∀ u ∈ l, scoreScaled u ≤ b.2) : l.foldl selStep b = b := by
  induction l with
  | nil => rfl
  | cons x t ih =>
    simp only [List.foldl_cons]
    rw [show selStep b x = b by
      simp only [selStep]
      rw [if_neg (not_lt.mpr (h x (List.mem_cons_self _ _)))]]
    exact ih (fun u hu => h u (List.mem_cons_of_mem x hu))

/-- The best-score fold returns the first candidate attaining the
maximal score, provided some candidate beats the seed. -/
theorem sel_fold_first (l : List Vod) (b : Option Nat × Int)
    (h : ∃ v ∈ l, b.2 < scoreScaled v) :
    ∃ w ∈ l, scoreScaled w = maxScoreAcc b.2 l ∧
      l.find? (fun v => scoreScaled v == maxScoreAcc b.2 l) = some w ∧
      l.foldl selStep b = (some w.vod_id, scoreScaled w) := by
  induction l generalizing b with
  | nil => simp at h
  | cons v t ih =>
    have hsnd : (selStep b v).2 = max b.2 (scoreScaled v) := selStep_snd b v
    have hM : maxScoreAcc b.2 (v :: t) = maxScoreAcc (max b.2 (scoreScaled v)) t := rfl
    by_cases hc : ∃ u ∈ t, (selStep b v).2 < scoreScaled u
    · rcases ih (selStep b v) hc with ⟨w, hwmem, hwscore, hwfind, hwfold⟩
      rw [hsnd] at hwscore hwfind
      refine ⟨w, List.mem_cons_of_mem v hwmem, ?_, ?_, ?_⟩
      · rw [hM]
        exact hwscore
      · rcases hc with ⟨u, hu, hltu⟩
        rw [hsnd] at hltu
        have huM : scoreScaled u ≤ maxScoreAcc (max b.2 (scoreScaled v)) t :=
          maxScoreAcc_ge t _ u hu
        have hvlt : scoreScaled v < maxScoreAcc b.2 (v :: t) := by
          rw [hM]
          have : scoreScaled v ≤ max b.2 (scoreScaled v) := le_max_right _ _
          omega
        rw [List.find?_cons_of_neg, hM]
        · exact hwfind
        · simp only [beq_iff_eq]
          omega
      · simp only [List.foldl_cons]
        exact hwfold
    · push_neg at hc
      have hblt : b.2 < scoreScaled v := by
        rcases h with ⟨x, hx, hxlt⟩
        rcases List.mem_cons.mp hx with he | he
        · exact he ▸ hxlt
        · have h1 := hc x he
          rw [hsnd] at h1
          omega
      have hstep : selStep b v = (some v.vod_id, scoreScaled v) := by
        simp only [selStep]
        rw [if_pos hblt]
      have hMv : maxScoreAcc b.2 (v :: t) = scoreScaled v := by
        rw [hM, max_eq_right hblt.le]
        apply maxScoreAcc_const
        intro u hu
        have h1 := hc u hu
        rw [hsnd, max_eq_right hblt.le] at h1
        exact h1
      refine ⟨v, List.mem_cons_self _ _, hMv.symm, ?_, ?_⟩
      · rw [List.find?_cons_of_pos]
        simp [hMv]
      · simp only [List.foldl_cons]
        rw [hstep]
        apply sel_fold_const
        intro u hu
        have h1 := hc u hu
        rw [hsnd, max_eq_right hblt.le] at h1
        exact h1

/-- Transfer a `find?` result to a stronger predicate that the found
element satisfies. -/
theorem find?_to_stronger {α : Type} (p q : α → Bool) (l : List α)
    (hpq : ∀ x ∈ l, p x = true → q x = true) (w : α)
    (hw : l.find? q = some w) (hp : p w = true) : l.find? p = some w := by
  induction l with
  | nil => simp at hw
  | cons a t ih =>
    by_cases hqa : q a = true
    · rw [List.find?_cons_of_pos _ hqa] at hw
      injection hw with hw
      subst hw
      rw [List.find?_cons_of_pos _ hp]
    · have hpa : ¬ p a = true := fun hpa => hqa (hpq a (List.mem_cons_self _ _) hpa)
      rw [List.find?_cons_of_neg _ hqa] at hw
      rw [List.find?_cons_of_neg _ hpa]
      exact ih (fun x hx => hpq x (List.mem_cons_of_mem a hx)) hw

/-- C6 (amended): primary selection picks, over the group's rows in
iteration order, the first candidate attaining the maximal score
(score = 1000 for nonempty playback data + 500 for nonempty synopsis
+ 100 for a poster + timestamp/10^6, modelled scaled by 10^6; exact
ties are broken in favour of the earlier candidate).  In particular, of
two duplicates where one has playback data and a poster and the other
only a poster (no playback data, no synopsis), the one with playback
data is selected as primary and survives the merge while the other is
deleted — provided the poster-only record's timestamp exceeds the
other's by less than 10^9 seconds, for otherwise the timestamp term
outweighs the 1000-point playback bonus. -/
theorem claim6_primary_selection (db : DB) (ids : List Nat) :
    ((∀ v ∈ groupRows db ids, -1000000 < scoreScaled v) →
      groupRows db ids ≠ [] →
      select_primary_record db ids =
        (firstMaxBy (groupRows db ids)).map (fun v => v.vod_id)) ∧
    (∀ a b : Vod,
      (groupRows db ids = [a, b] ∨ groupRows db ids = [b, a]) →
      a.vod_play_url ≠ "" → a.vod_pic ≠ "" →
      b.vod_play_url = "" → b.vod_blurb = "" →
      0 ≤ a.vod_time → 0 ≤ b.vod_time →
      b.vod_time - a.vod_time < 1000000000 →
      b.vod_id ≠ a.vod_id →
      ∀ key now,
        (merge_duplicate_group_with_log db ids key now).2.1 = some a.vod_id ∧
        (∀ v ∈ (merge_duplicate_group_with_log db ids key now).1.vod,
          v.vod_id ≠ b.vod_id) ∧
        (∃ v ∈ (merge_duplicate_group_with_log db ids key now).1.vod,
          v.vod_id = a.vod_id)) := by
  constructor
  · intro hpos hne
    have hex : ∃ v ∈ groupRows db ids,
        ((none : Option Nat), (-1000000 : Int)).2 < scoreScaled v := by
      rcases List.exists_mem_of_ne_nil (groupRows db ids) hne with ⟨x, hx⟩
      exact ⟨x, hx, hpos x hx⟩
    rcases sel_fold_first (groupRows db ids) (none, -1000000) hex with
      ⟨w, hwmem, hwscore, hwfind, hwfold⟩
    rw [show ((none : Option Nat), (-1000000 : Int)).2 = (-1000000 : Int) from rfl]
      at hwscore hwfind
    have hfm : firstMaxBy (groupRows db ids) = some w := by
      simp only [firstMaxBy]
      refine find?_to_stronger _ _ _ ?_ w hwfind ?_
      · intro x hx hpx
        simp only [List.all_eq_true, decide_eq_true_eq] at hpx
        have h1 : scoreScaled x ≤ maxScoreAcc (-1000000) (groupRows db ids) :=
          maxScoreAcc_ge _ _ x hx
        have h2 : scoreScaled w ≤ scoreScaled x := hpx w hwmem
        simp only [beq_iff_eq]
        omega
      · simp only [List.all_eq_true, decide_eq_true_eq]
        intro u hu
        have h1 := maxScoreAcc_ge (groupRows db ids) (-1000000) u hu
        omega
    show ((groupRows db ids).foldl selStep (none, -1000000)).1 = _
    rw [hwfold, hfm]
    rfl
  · intro a b horder hpa hpic hbp hbb hta htb hgap hbane key now
    have hsa1 : 1100000000 + a.vod_time ≤ scoreScaled a := by
      simp only [scoreScaled]
      rw [if_neg hpa, if_neg hpic]
      split <;> omega
    have hsb1 : scoreScaled b ≤ 100000000 + b.vod_time := by
      simp only [scoreScaled]
      rw [if_pos hbp, if_pos hbb]
      split <;> omega
    have hsb2 : b.vod_time ≤ scoreScaled b := by
      simp only [scoreScaled]
      rw [if_pos hbp, if_pos hbb]
      split <;> omega
    have hagt : (-1000000 : Int) < scoreScaled a := by omega
    have hbgt : (-1000000 : Int) < scoreScaled b := by omega
    have hlt : scoreScaled b < scoreScaled a := by omega
    have e1 : selStep (none, -1000000) a = (some a.vod_id, scoreScaled a) := by
      simp only [selStep]
      rw [if_pos hagt]
    have e2 : selStep (some a.vod_id, scoreScaled a) b = (some a.vod_id, scoreScaled a) := by
      simp only [selStep]
      rw [if_neg (not_lt.mpr hlt.le)]
    have e3 : selStep (none, -1000000) b = (some b.vod_id, scoreScaled b) := by
      simp only [selStep]
      rw [if_pos hbgt]
    have e4 : selStep (some b.vod_id, scoreScaled b) a = (some a.vod_id, scoreScaled a) := by
      simp only [selStep]
      rw [if_pos hlt]
    have hsel : select_primary_record db ids = some a.vod_id := by
      show ((groupRows db ids).foldl selStep (none, -1000000)).1 = _
      rcases horder with h | h
      · rw [h, List.foldl_cons, List.foldl_cons, List.foldl_nil, e1, e2]
      · rw [h, List.foldl_cons, List.foldl_cons, List.foldl_nil, e3, e4]
    have hbin : b ∈ groupRows db ids := by
      rcases horder with h | h <;> rw [h] <;> simp
    have hain : a ∈ groupRows db ids := by
      rcases horder with h | h <;> rw [h] <;> simp
    have hbids : ids.contains b.vod_id = true := by
      have := (List.mem_filter.mp hbin).2
      simpa using this
    have haindb : a ∈ db.vod := (List.mem_filter.mp hain).1
    have hbdup : b.vod_id ∈ ids.filter (fun vid => vid != a.vod_id) := by
      rw [List.mem_filter]
      constructor
      · simpa using hbids
      · simpa using hbane
    simp only [merge_duplicate_group_with_log, hsel]
    refine ⟨trivial, ?_, ?_⟩
    · intro v hv
      simp only [List.mem_filter] at hv
      intro hveq
      have hcon := hv.2
      rw [hveq] at hcon
      simp only [Bool.not_eq_true'] at hcon
      have hnin : b.vod_id ∉ List.filter (fun vid => vid != a.vod_id) ids := by
        simpa using hcon
      exact hnin hbdup
    · refine ⟨{ a with
        vod_play_from := (merge_play_data db ids).1,
        vod_play_url := (merge_play_data db ids).2 }, ?_, rfl⟩
      rw [List.mem_filter]
      constructor
      · rw [List.mem_map]
        refine ⟨a, haindb, ?_⟩
        rw [if_pos (by simp)]
      · simp

/-- Record A of the C6 scenario: playback data and a poster, timestamp 0
(e.g. an upstream `vod_time` of 0). -/
def vodC6A : Vod :=
  { vod_id := 1, res_unique_id := "wj_1", res_source_id := 1, vod_name := "Foo",
    vod_en := "", vod_type_id := 6, vod_pic := "pic", vod_remarks := "",
    vod_blurb := "", vod_play_url := "urlA", vod_play_from := "wj",
    vod_actor := "", vod_director := "", vod_year := "2024", vod_area := "",
    vod_lang := "", vod_class := "", vod_time := 0, vod_time_hits := 0,
    vod_hits := 0, hot_rank := 0 }

/-- Record B of the C6 scenario: only a poster, timestamp 1.5·10^9
(year 2017). -/
def vodC6B : Vod :=
  { vodC6A with
    vod_id := 2, res_unique_id := "mt_9", res_source_id := 2,
    vod_play_url := "", vod_play_from := "", vod_time := 1500000000 }

/-- A second configured source for the scenario store. -/
def srcMt : Source :=
  { res_source_id := 2, res_name := "mtsrc", res_url := "u", data_format := "json",
    resIdPrefix := "mt_", res_mapping := [("10", 6)], operation_mode := "add_update" }

/-- The C6 scenario store: the two duplicate records of title
`(Foo, 2024)`. -/
def dbC6 : DB :=
  { config := [srcWj, srcMt], vod := [vodC6A, vodC6B],
    search := [(1, "Foo"), (2, "Foo")], mergeLog := [], nextVodId := 3 }

/-- C6 (counterexample): the `timestamp / 10^6` term is not merely a
tiebreak.  Of the two duplicates, A has playback data and a poster
(score 1100 + 0) while B has only a poster but a much larger timestamp
(score 100 + 1500); the code picks B, and after the merge B survives
while A — the record with playback data — is deleted, contrary to the
claim's "the one with playback data survives". -/
theorem claim6_tiebreak_dominates_counterexample :
    vodC6A.vod_play_url ≠ "" ∧ vodC6A.vod_pic ≠ "" ∧
    vodC6B.vod_play_url = "" ∧ vodC6B.vod_pic ≠ "" ∧ vodC6B.vod_blurb = "" ∧
    vodKey vodC6A = vodKey vodC6B ∧
    select_primary_record dbC6 [1, 2] = some vodC6B.vod_id ∧
    (merge_duplicate_group_with_log dbC6 [1, 2] "Foo|2024" 0).1.vod.map
      (fun v => v.vod_id) = [2] := by
  decide

/-- C6 witness: the amended scenario at a concrete store where the
timestamps differ by less than 10^9: A (playback and poster, time 0) is
selected as primary over B (poster only, time 5000), B's row is gone
after the merge and A's row survives. -/
def dbC6W : DB :=
  { dbC6 with vod := [vodC6A, { vodC6B with vod_time := 5000 }] }

theorem claim6_primary_selection_witness :
    (merge_duplicate_group_with_log dbC6W [1, 2] "Foo|2024" 0).2.1 = some vodC6A.vod_id ∧
    (∀ v ∈ (merge_duplicate_group_with_log dbC6W [1, 2] "Foo|2024" 0).1.vod,
      v.vod_id ≠ ({ vodC6B with vod_time := 5000 } : Vod).vod_id) ∧
    (∃ v ∈ (merge_duplicate_group_with_log dbC6W [1, 2] "Foo|2024" 0).1.vod,
      v.vod_id = vodC6A.vod_id) :=
  (claim6_primary_selection dbC6W [1, 2]).2 vodC6A { vodC6B with vod_time := 5000 }
    (Or.inl (by decide)) (by decide) (by decide) (by decide) (by decide)
    (by decide) (by decide) (by decide) (by decide) "Foo|2024" 0

/-! ## Claim C5 — pagination driver stop and skip behaviour -/

theorem handlePage_next_imp_lt (src : Source) (now maxPages page : Int) (db : DB)
    (cnt : Nat) (data : ApiResp) (db' : DB) (c : Nat)
    (h : handlePage src now maxPages page db cnt data = .next db' c) :
    page < maxPages := by
  simp only [handlePage] at h
  split at h
  · exact PageOutcome.noConfusion h
  · split at h
    · exact PageOutcome.noConfusion h
    · next hlim =>
      split at h
      · exact PageOutcome.noConfusion h
      · omega

theorem handlePage_stop_cases (src : Source) (now maxPages page : Int) (db : DB)
    (cnt : Nat) (data : ApiResp) (db' : DB) (c : Nat) (r : StopReason)
    (h : handlePage src now maxPages page db cnt data = .stop db' c r) :
    (r = .emptyList ∧ data.list = []) ∨
    (r = .pageLimit ∧ data.list ≠ [] ∧ maxPages ≤ page) ∨
    (r = .lastPage ∧ data.list ≠ [] ∧ page < maxPages ∧
      data.pagecount.getD 1 ≤ data.page.getD page) := by
  simp only [handlePage] at h
  split at h
  · next hempty =>
    left
    injection h with h1 h2 h3
    exact ⟨h3.symm, List.isEmpty_iff.mp hempty⟩
  · next hempty =>
    have hlist : data.list ≠ [] := fun hq => hempty (by simp [hq])
    split at h
    · next hlim =>
      right; left
      injection h with h1 h2 h3
      exact ⟨h3.symm, hlist, hlim⟩
    · next hlim =>
      split at h
      · next hlast =>
        right; right
        injection h with h1 h2 h3
        exact ⟨h3.symm, hlist, by omega, hlast⟩
      · exact PageOutcome.noConfusion h

theorem collectLoop_stop_chars (src : Source) (oracle : Int → Option ApiResp)
    (firstPage : ApiResp) (maxPages now : Int) :
    ∀ fuel db page cnt log db' c lg r,
      collectLoop src oracle firstPage maxPages now fuel db page cnt log =
        (db', c, lg, some r) →
      ∃ p data, ((p = 1 ∧ data = firstPage) ∨ (oracle p = some data ∧ data.code = 1)) ∧
        ((r = .emptyList ∧ data.list = []) ∨
         (r = .pageLimit ∧ data.list ≠ [] ∧ maxPages ≤ p) ∨
         (r = .lastPage ∧ data.list ≠ [] ∧ p < maxPages ∧
           data.pagecount.getD 1 ≤ data.page.getD p)) := by
  intro fuel
  induction fuel with
  | zero =>
    intro db page cnt log db' c lg r h
    simp only [collectLoop, Prod.mk.injEq] at h
    exact Option.noConfusion h.2.2.2
  | succ fuel ih =>
    intro db page cnt log db' c lg r h
    simp only [collectLoop] at h
    split at h
    · next hp1 =>
      have hpage : page = 1 := by simpa using hp1
      cases hh : handlePage src now maxPages page db cnt firstPage with
      | stop d2 c2 r2 =>
        rw [hh] at h
        simp only [Prod.mk.injEq, Option.some.injEq] at h
        refine ⟨page, firstPage, Or.inl ⟨hpage, rfl⟩, ?_⟩
        rw [← h.2.2.2]
        exact handlePage_stop_cases src now maxPages page db cnt firstPage d2 c2 r2 hh
      | next d2 c2 =>
        rw [hh] at h
        exact ih d2 (page + 1) c2 log db' c lg r h
    · next hp1 =>
      split at h
      · next ho =>
        exact ih db (page + 1) cnt (log ++ [page]) db' c lg r h
      · next data ho =>
        split at h
        · next hcode =>
          cases hh : handlePage src now maxPages page db cnt data with
          | stop d2 c2 r2 =>
            rw [hh] at h
            simp only [Prod.mk.injEq, Option.some.injEq] at h
            refine ⟨page, data, Or.inr ⟨ho, by simpa using hcode⟩, ?_⟩
            rw [← h.2.2.2]
            exact handlePage_stop_cases src now maxPages page db cnt data d2 c2 r2 hh
          | next d2 c2 =>
            rw [hh] at h
            exact ih d2 (page + 1) c2 (log ++ [page]) db' c lg r h
        · exact ih db (page + 1) cnt (log ++ [page]) db' c lg r h

theorem collectLoop_pages_le (src : Source) (oracle : Int → Option ApiResp)
    (firstPage : ApiResp) (maxPages now : Int)
    (hall : ∀ p : Int, ∃ d, oracle p = some d ∧ d.code = 1) :
    ∀ fuel db page cnt log, page ≤ maxPages → (∀ q ∈ log, q ≤ maxPages) →
      ∀ q ∈ (collectLoop src oracle firstPage maxPages now fuel db page cnt log).2.2.1,
        q ≤ maxPages := by
  intro fuel
  induction fuel with
  | zero =>
    intro db page cnt log hpage hlog q hq
    exact hlog q hq
  | succ fuel ih =>
    intro db page cnt log hpage hlog q hq
    have hlog' : ∀ x ∈ log ++ [page], x ≤ maxPages := by
      intro x hx
      rcases List.mem_append.mp hx with hx | hx
      · exact hlog x hx
      · rw [List.mem_singleton.mp hx]
        exact hpage
    simp only [collectLoop] at hq
    split at hq
    · cases hh : handlePage src now maxPages page db cnt firstPage with
      | stop d2 c2 r2 =>
        rw [hh] at hq
        exact hlog q hq
      | next d2 c2 =>
        rw [hh] at hq
        have hlt := handlePage_next_imp_lt src now maxPages page db cnt firstPage d2 c2 hh
        exact ih d2 (page + 1) c2 log (by omega) hlog q hq
    · split at hq
      · next ho =>
        rcases hall page with ⟨d, hd, hcode⟩
        rw [ho] at hd
        exact Option.noConfusion hd
      · next data ho =>
        split at hq
        · cases hh : handlePage src now maxPages page db cnt data with
          | stop d2 c2 r2 =>
            rw [hh] at hq
            exact hlog' q hq
          | next d2 c2 =>
            rw [hh] at hq
            have hlt := handlePage_next_imp_lt src now maxPages page db cnt data d2 c2 hh
            exact ih d2 (page + 1) c2 (log ++ [page]) (by omega) hlog' q hq
        · next hcode' =>
          rcases hall page with ⟨d, hd, hcode⟩
          rw [ho] at hd
          injection hd with hd
          rw [hd] at hcode'
          exact absurd (by simpa using hcode) hcode'

/-- C5 (amended): pagination behaviour of one source's list collection.
(1) On a page fetch failure — no payload or a non-success code — the
page is skipped and the driver advances to the next page without
aborting the source and without touching the store.  (2) Whenever the
loop stops with a reason, the final page was successfully fetched and
one of the claimed conditions held: its list was empty, the configured
page limit was reached, or the source reported current page ≥ its own
total-page count.  (3) Conversely a successful page satisfying none of
those conditions continues to the next page.  (4) When every page fetch
succeeds (and the limit is at least 1), no page beyond the configured
page limit is ever fetched; after a failed fetch at the limit, however,
the driver does advance past the limit (see the counterexample). -/
theorem claim5_pagination (src : Source) (oracle : Int → Option ApiResp)
    (firstPage : ApiResp) (maxPages now : Int) :
    (∀ fuel db (page : Int) cnt log, page ≠ 1 → oracle page = none →
      collectLoop src oracle firstPage maxPages now (fuel + 1) db page cnt log =
        collectLoop src oracle firstPage maxPages now fuel db (page + 1) cnt
          (log ++ [page])) ∧
    (∀ fuel db (page : Int) cnt log data, page ≠ 1 → oracle page = some data →
      data.code ≠ 1 →
      collectLoop src oracle firstPage maxPages now (fuel + 1) db page cnt log =
        collectLoop src oracle firstPage maxPages now fuel db (page + 1) cnt
          (log ++ [page])) ∧
    (∀ fuel db page cnt log db' c lg r,
      collectLoop src oracle firstPage maxPages now fuel db page cnt log =
        (db', c, lg, some r) →
      ∃ p data, ((p = 1 ∧ data = firstPage) ∨ (oracle p = some data ∧ data.code = 1)) ∧
        ((r = .emptyList ∧ data.list = []) ∨
         (r = .pageLimit ∧ data.list ≠ [] ∧ maxPages ≤ p) ∨
         (r = .lastPage ∧ data.list ≠ [] ∧ p < maxPages ∧
           data.pagecount.getD 1 ≤ data.page.getD p))) ∧
    (∀ (page : Int) db cnt data, data.list ≠ [] → page < maxPages →
      data.page.getD page < data.pagecount.getD 1 →
      handlePage src now maxPages page db cnt data =
        .next (parse_and_insert_vod_data db src data.list now).1
          (cnt + (parse_and_insert_vod_data db src data.list now).2.1)) ∧
    (∀ db fuel d1, oracle 1 = some d1 → d1.code = 1 →
      (∀ p : Int, ∃ d, oracle p = some d ∧ d.code = 1) →
      1 ≤ d1.pagecount.getD 1 →
      ∀ q ∈ (collect_from_source db src oracle now fuel).2.2.1,
        q ≤ d1.pagecount.getD 1) := by
  refine ⟨?_, ?_, collectLoop_stop_chars src oracle firstPage maxPages now, ?_, ?_⟩
  · intro fuel db page cnt log hpage ho
    have hb : (page == 1) = false := by simpa using hpage
    simp only [collectLoop, hb, Bool.false_eq_true, if_false, ho]
  · intro fuel db page cnt log data hpage ho hcode
    have hb : (page == 1) = false := by simpa using hpage
    have hc : (data.code == 1) = false := by simpa using hcode
    simp only [collectLoop, hb, Bool.false_eq_true, if_false, ho, hc]
  · intro page db cnt data hlist hlim hlast
    have he : data.list.isEmpty = false := by
      cases hq : data.list with
      | nil => exact absurd hq hlist
      | cons a l => rfl
    simp only [handlePage, he, Bool.false_eq_true, if_false]
    rw [if_neg (by omega), if_neg (by omega)]
  · intro db fuel d1 h1 hcode hall hpc
    simp only [collect_from_source, h1]
    have hc : (d1.code == 1) = true := by simpa using hcode
    simp only [hc, if_true]
    intro q hq
    refine collectLoop_pages_le src oracle d1 (d1.pagecount.getD 1) now hall fuel db 1 0
      [1] hpc ?_ q hq
    intro x hx
    rw [List.mem_singleton.mp hx]
    exact hpc

/-- Page 1 of the C5 counterexample source: success, one record,
reported pagecount 2 — so the configured page limit is 2. -/
def respC5a : ApiResp :=
  { code := 1, page := some 1, pagecount := some 2, total := some 2, limit := some 1,
    list := [rawFoo] }

/-- Page 3 of the C5 counterexample source: success with an empty
list (terminating the run). -/
def respC5c : ApiResp :=
  { code := 1, page := some 3, pagecount := some 2, total := some 2, limit := some 1,
    list := [] }

/-- The C5 page oracle: page 1 succeeds, page 2 fails (transport
error), page 3 succeeds with an empty list. -/
def oracleC5 : Int → Option ApiResp :=
  fun p => if p == 1 then some respC5a else if p == 3 then some respC5c else none

/-- C5 (counterexample): a page beyond the configured page limit is
fetched.  The source reports 2 pages, so the limit is 2; page 2's fetch
fails, the driver skips to page 3 and fetches it — `3 > 2` — because the
limit is only checked after a successful page.  The run stops only when
page 3 returns an empty list. -/
theorem claim5_page_beyond_limit_counterexample :
    oracleC5 1 = some respC5a ∧ respC5a.pagecount = some 2 ∧ oracleC5 2 = none ∧
    (collect_from_source { initDB with config := [srcWj] } srcWj oracleC5 0 10).2.2.1 =
      [1, 2, 3] ∧
    (collect_from_source { initDB with config := [srcWj] } srcWj oracleC5 0 10).2.2.2 =
      CollectOutcome.stopped .emptyList ∧
    (2 : Int) < 3 := by
  decide

/-- The C5 witness oracle: every page succeeds; page 1 reports a single
page with an empty list. -/
def oracleW5 : Int → Option ApiResp :=
  fun _ => some { code := 1, page := some 1, pagecount := some 1, total := some 0,
                  limit := some 20, list := [] }

theorem claim5_pagination_witness :
    ∀ q ∈ (collect_from_source initDB srcWj oracleW5 0 5).2.2.1, q ≤ (1 : Int) :=
  (claim5_pagination srcWj oracleW5
      { code := 1, page := some 1, pagecount := some 1, total := some 0,
        limit := some 20, list := [] } 1 0).2.2.2.2 initDB 5 _ rfl rfl
    (fun p => ⟨_, rfl, rfl⟩) (by decide)

/-! ## Claim C2 — hot-rank reconciliation -/

/-- A same-titled pair for the C2 counterexample: the older record
carries a negative (nonzero) rank, the newer a positive one. -/
def vodH1 : Vod :=
  { vodC6A with vod_id := 1, vod_name := "A", vod_time := 0, hot_rank := -1 }

def vodH2 : Vod :=
  { vodC6A with
    vod_id := 2, res_unique_id := "wj_2", vod_name := "A",
    vod_time := 10, hot_rank := 5 }

def dbHot : DB :=
  { config := [srcWj], vod := [vodH1, vodH2], search := [], mergeLog := [],
    nextVodId := 3 }

/-- A same-titled, same-timestamped pair for the C2 tiebreak
counterexample: the record with the larger surrogate id carries the
lexicographically smaller identity (`res_unique_id`). -/
def vodT1 : Vod :=
  { vodC6A with
    vod_id := 1, res_unique_id := "wj_9", vod_name := "B",
    vod_time := 10, hot_rank := 5 }

def vodT2 : Vod :=
  { vodC6A with
    vod_id := 2, res_unique_id := "wj_1", vod_name := "B",
    vod_time := 10, hot_rank := 3 }

def dbHotT : DB :=
  { config := [srcWj], vod := [vodT1, vodT2], search := [], mergeLog := [],
    nextVodId := 3 }

/-- C2 (counterexample, two divergences).  First, "nonzero" is not what
the code tests — it tests `hot_rank > 0` everywhere: with a stale
record holding rank `-1` and the newest record holding rank `5` for the
same title, reconciliation changes nothing, so afterwards two records
of the title still hold nonzero ranks, refuting "at most one record
with that exact title holds a nonzero rank".  Second, the tiebreak is
not "identity descending" (identity = `res_unique_id`, the spec's
`sourcePrefix + remoteId`): the code orders by
`vod_time DESC, vod_id DESC`, so on equal timestamps the record with
the larger surrogate `vod_id` wins even when its identity is strictly
smaller — here records 1 (`"wj_9"`, rank 5) and 2 (`"wj_1"`, rank 3)
share title and timestamp, identity-descending names record 1 the
newest, yet reconciliation moves the rank to record 2 and zeroes
record 1, so the rank holder is not the newest under
(timestamp descending, identity descending). -/
theorem claim2_nonzero_rank_counterexample :
    (vodH1.vod_name = vodH2.vod_name ∧ vodH1.hot_rank ≠ 0 ∧ vodH2.hot_rank ≠ 0 ∧
      (sync_hot_rank_to_new_records dbHot).1.vod.map
        (fun v => (v.vod_id, v.hot_rank)) = [(1, -1), (2, 5)]) ∧
    (vodT1.vod_name = vodT2.vod_name ∧ vodT1.vod_time = vodT2.vod_time ∧
      vodT1.res_unique_id ≠ vodT2.res_unique_id ∧
      strLe vodT2.res_unique_id vodT1.res_unique_id ∧
      (sync_hot_rank_to_new_records dbHotT).1.vod.map
        (fun v => (v.vod_id, v.res_unique_id, v.hot_rank)) =
        [(1, "wj_9", 0), (2, "wj_1", 5)]) := by
  decide

/-- `target_rank` accumulation with an explicit seed. -/
def targetAux (b : Int) (l : List Vod) : Int :=
  l.foldl (fun t r => if 0 < r.hot_rank then max t r.hot_rank else t) b

theorem targetRankOf_eq_aux (l : List Vod) : targetRankOf l = targetAux 0 l := rfl

theorem targetAux_init_le (l : List Vod) (b : Int) : b ≤ targetAux b l := by
  induction l generalizing b with
  | nil => exact le_refl b
  | cons x t ih =>
    simp only [targetAux, List.foldl_cons]
    split
    · exact le_trans (le_max_left _ _) (ih (max b x.hot_rank))
    · exact ih b

theorem targetAux_ge_pos (l : List Vod) (b : Int) :
    ∀ v ∈ l, 0 < v.hot_rank → v.hot_rank ≤ targetAux b l := by
  induction l generalizing b with
  | nil => simp
  | cons x t ih =>
    intro v hv hvpos
    simp only [targetAux, List.foldl_cons]
    rcases List.mem_cons.mp hv with h | h
    · subst h
      rw [if_pos hvpos]
      exact le_trans (le_max_right _ _) (targetAux_init_le t (max b v.hot_rank))
    · split
      · exact ih (max b x.hot_rank) v h hvpos
      · exact ih b v h hvpos

theorem targetAux_cases (l : List Vod) :
    ∀ b, targetAux b l = b ∨ ∃ v ∈ l, targetAux b l = v.hot_rank ∧ 0 < v.hot_rank := by
  induction l with
  | nil => intro b; left; rfl
  | cons x t ih =>
    intro b
    by_cases hx : 0 < x.hot_rank
    · have hstep : targetAux b (x :: t) = targetAux (max b x.hot_rank) t := by
        simp only [targetAux, List.foldl_cons, if_pos hx]
      rcases ih (max b x.hot_rank) with h | ⟨v, hv, he, hp⟩
      · rcases le_total b x.hot_rank with hle | hle
        · right
          exact ⟨x, List.mem_cons_self _ _, by rw [hstep, h, max_eq_right hle], hx⟩
        · left
          rw [hstep, h, max_eq_left hle]
      · right
        exact ⟨v, List.mem_cons_of_mem x hv, hstep ▸ he, hp⟩
    · have hstep : targetAux b (x :: t) = targetAux b t := by
        simp only [targetAux, List.foldl_cons, if_neg hx]
      rcases ih b with h | ⟨v, hv, he, hp⟩
      · left; rw [hstep, h]
      · right
        exact ⟨v, List.mem_cons_of_mem x hv, hstep ▸ he, hp⟩

theorem targetAux_perm {l₁ l₂ : List Vod} (h : l₁.Perm l₂) :
    ∀ b, targetAux b l₁ = targetAux b l₂ := by
  induction h with
  | nil => intro b; rfl
  | cons x _ ih =>
    intro b
    simp only [targetAux, List.foldl_cons]
    exact ih _
  | swap x y l =>
    intro b
    simp only [targetAux, List.foldl_cons]
    have hswap : (if 0 < x.hot_rank then max (if 0 < y.hot_rank then max b y.hot_rank else b)
          x.hot_rank else (if 0 < y.hot_rank then max b y.hot_rank else b))
        = (if 0 < y.hot_rank then max (if 0 < x.hot_rank then max b x.hot_rank else b)
          y.hot_rank else (if 0 < x.hot_rank then max b x.hot_rank else b)) := by
      split <;> split <;> omega
    rw [hswap]
  | trans _ _ ih1 ih2 =>
    intro b
    exact (ih1 b).trans (ih2 b)

instance : IsTotal Vod hotGE := by
  constructor
  intro a b
  unfold hotGE
  rcases lt_trichotomy a.vod_time b.vod_time with h | h | h
  · right; left; exact h
  · rcases Nat.le_total b.vod_id a.vod_id with h2 | h2
    · left; right; exact ⟨h, h2⟩
    · right; right; exact ⟨h.symm, h2⟩
  · left; left; exact h

theorem hotGE_refl (v : Vod) : hotGE v v := Or.inr ⟨rfl, le_refl _⟩

/-- The head of the reconciler's sorted list is newest: it dominates
every record of the group under `(vod_time desc, vod_id desc)`. -/
theorem sortHot_head_ge (l : List Vod) (w : Vod) (t : List Vod)
    (h : sortHot l = w :: t) : ∀ x ∈ l, hotGE w x := by
  intro x hx
  have hs : List.Sorted hotGE (sortHot l) := List.sorted_insertionSort _ l
  have hperm : (sortHot l).Perm l := List.perm_insertionSort _ l
  have hx' : x ∈ sortHot l := hperm.mem_iff.mpr hx
  rw [h] at hx' hs
  rcases List.mem_cons.mp hx' with he | he
  · rw [he]
    exact hotGE_refl w
  · exact List.rel_of_sorted_cons hs x he

theorem filter_map_comm (f : Vod → Vod) (p : Vod → Bool) (l : List Vod)
    (hp : ∀ v ∈ l, p (f v) = p v) :
    (l.map f).filter p = (l.filter p).map f := by
  induction l with
  | nil => rfl
  | cons x t ih =>
    simp only [List.map_cons, List.filter_cons]
    rw [hp x (List.mem_cons_self _ _)]
    split
    · simp only [List.map_cons]
      rw [ih (fun v hv => hp v (List.mem_cons_of_mem x hv))]
    · exact ih (fun v hv => hp v (List.mem_cons_of_mem x hv))

theorem filter_map_fixed (f : Vod → Vod) (p : Vod → Bool) (l : List Vod)
    (hp : ∀ v ∈ l, p (f v) = p v) (hf : ∀ v ∈ l, p v = true → f v = v) :
    (l.map f).filter p = l.filter p := by
  rw [filter_map_comm f p l hp]
  have hfix : ∀ v ∈ l.filter p, f v = v := fun v hv =>
    hf v (List.mem_filter.mp hv).1 (List.mem_filter.mp hv).2
  calc (l.filter p).map f = (l.filter p).map id := List.map_congr_left hfix
    _ = l.filter p := List.map_id _

/-- Membership in the `SELECT DISTINCT` accumulation of `hotNames`. -/
theorem hotNames_fold_mem (l : List Vod) :
    ∀ ns x, (x ∈ l.foldl
        (fun ns v =>
          if 0 < v.hot_rank then
            if ns.contains v.vod_name then ns else ns ++ [v.vod_name]
          else ns) ns
      ↔ (x ∈ ns ∨ ∃ v ∈ l, v.vod_name = x ∧ 0 < v.hot_rank)) := by
  induction l with
  | nil => simp
  | cons r t ih =>
    intro ns x
    simp only [List.foldl_cons]
    by_cases hr : 0 < r.hot_rank
    · rw [if_pos hr]
      by_cases hc : ns.contains r.vod_name = true
      · rw [if_pos hc, ih]
        constructor
        · rintro (h | ⟨v, hv, he, hp⟩)
          · exact Or.inl h
          · exact Or.inr ⟨v, List.mem_cons_of_mem r hv, he, hp⟩
        · rintro (h | ⟨v, hv, he, hp⟩)
          · exact Or.inl h
          · rcases List.mem_cons.mp hv with hv | hv
            · subst hv
              left
              rw [← he]
              simpa using hc
            · exact Or.inr ⟨v, hv, he, hp⟩
      · rw [if_neg hc, ih]
        constructor
        · rintro (h | ⟨v, hv, he, hp⟩)
          · rcases List.mem_append.mp h with h | h
            · exact Or.inl h
            · right
              exact ⟨r, List.mem_cons_self _ _, (List.mem_singleton.mp h).symm, hr⟩
          · exact Or.inr ⟨v, List.mem_cons_of_mem r hv, he, hp⟩
        · rintro (h | ⟨v, hv, he, hp⟩)
          · exact Or.inl (List.mem_append.mpr (Or.inl h))
          · rcases List.mem_cons.mp hv with hv | hv
            · subst hv
              left
              exact List.mem_append.mpr (Or.inr (by simp [he]))
            · exact Or.inr ⟨v, hv, he, hp⟩
    · rw [if_neg hr, ih]
      constructor
      · rintro (h | ⟨v, hv, he, hp⟩)
        · exact Or.inl h
        · exact Or.inr ⟨v, List.mem_cons_of_mem r hv, he, hp⟩
      · rintro (h | ⟨v, hv, he, hp⟩)
        · exact Or.inl h
        · rcases List.mem_cons.mp hv with hv | hv
          · subst hv
            exact absurd hp hr
          · exact Or.inr ⟨v, hv, he, hp⟩

theorem hotNames_mem (db : DB) (x : String) :
    x ∈ hotNames db ↔ ∃ v ∈ db.vod, v.vod_name = x ∧ 0 < v.hot_rank := by
  have h := hotNames_fold_mem db.vod [] x
  simpa [hotNames] using h

theorem hotNames_fold_nodup (l : List Vod) :
    ∀ ns : List String, ns.Nodup →
      (l.foldl
        (fun ns v =>
          if 0 < v.hot_rank then
            if ns.contains v.vod_name then ns else ns ++ [v.vod_name]
          else ns) ns).Nodup := by
  induction l with
  | nil => intro ns h; exact h
  | cons r t ih =>
    intro ns h
    simp only [List.foldl_cons]
    by_cases hr : 0 < r.hot_rank
    · rw [if_pos hr]
      by_cases hc : ns.contains r.vod_name = true
      · rw [if_pos hc]
        exact ih ns h
      · rw [if_neg hc]
        apply ih
        rw [List.nodup_append]
        refine ⟨h, List.nodup_singleton _, ?_⟩
        intro a ha hb
        rw [List.mem_singleton.mp hb] at ha
        exact hc (by simpa using ha)
    · rw [if_neg hr]
      exact ih ns h

theorem hotNames_nodup (db : DB) : (hotNames db).Nodup :=
  hotNames_fold_nodup db.vod [] List.nodup_nil

theorem syncName_vod_ids (db : DB) (m : String) :
    ((syncName db m).1).vod.map (fun v => v.vod_id) = db.vod.map (fun v => v.vod_id) := by
  simp only [syncName]
  split
  · rfl
  · next newest rest heq =>
    split
    · simp only [List.map_map]
      apply List.map_congr_left
      intro v _
      simp only [Function.comp]
      split
      · split <;> rfl
      · split <;> rfl
    · rfl

theorem syncName_untouched (db : DB) (m : String) :
    ((syncName db m).1).config = db.config ∧
    ((syncName db m).1).search = db.search ∧
    ((syncName db m).1).mergeLog = db.mergeLog ∧
    ((syncName db m).1).nextVodId = db.nextVodId := by
  simp only [syncName]
  split
  · exact ⟨rfl, rfl, rfl, rfl⟩
  · split
    · exact ⟨rfl, rfl, rfl, rfl⟩
    · exact ⟨rfl, rfl, rfl, rfl⟩

/-- A member of the reconciler's sorted list belongs to the group. -/
theorem sortHot_mem (l : List Vod) (x : Vod) (h : x ∈ sortHot l) : x ∈ l :=
  (List.perm_insertionSort _ l).mem_iff.mp h

/-- Reconciling title `m` leaves the records of any other title `n`
untouched (given unique record ids). -/
theorem syncName_frame (db : DB) (m n : String) (hne : m ≠ n)
    (hids : (db.vod.map (fun v => v.vod_id)).Nodup) :
    ((syncName db m).1).vod.filter (fun v => v.vod_name == n) =
      db.vod.filter (fun v => v.vod_name == n) := by
  simp only [syncName]
  split
  · rfl
  · next newest rest heq =>
    split
    · have hnewmem : newest ∈ db.vod.filter (fun v => v.vod_name == m) := by
        apply sortHot_mem
        rw [heq]
        exact List.mem_cons_self _ _
      have hnewname : newest.vod_name = m := by
        have h2 := (List.mem_filter.mp hnewmem).2
        simpa using h2
      have hnewdb : newest ∈ db.vod := (List.mem_filter.mp hnewmem).1
      show List.filter _ (List.map _ (List.map _ db.vod)) = _
      rw [filter_map_fixed]
      · exact filter_map_fixed _ _ db.vod
          (fun v _ => by split <;> rfl)
          (fun v hv hpv => by
            have hvn : v.vod_name = n := by simpa using hpv
            rw [if_neg (by simp [hvn, hne.symm])])
      · intro x _
        split <;> rfl
      · intro x hx hpx
        rcases List.mem_map.mp hx with ⟨v, hv, hfx⟩
        have hvn : v.vod_name = n := by
          have hname : x.vod_name = v.vod_name := by
            rw [← hfx]
            split <;> rfl
          rw [hname] at hpx
          simpa using hpx
        have hxv : x = v := by
          rw [← hfx]
          rw [if_neg (by simp [hvn, hne.symm])]
        subst hxv
        have hxne : x ≠ newest := by
          intro hq
          rw [hq, hnewname] at hvn
          exact hne hvn
        have hidne : x.vod_id ≠ newest.vod_id := by
          intro hq
          exact hxne (List.inj_on_of_nodup_map hids hv hnewdb hq)
        rw [if_neg (by simpa using hidne)]
    · rfl

/-- What one reconciliation step does to its own title's group: the
newest record ends holding the target rank, every other record ends
non-positive, and a group already in that state is left unchanged. -/
theorem syncName_spec (db : DB) (n : String)
    (hids : (db.vod.map (fun v => v.vod_id)).Nodup)
    (hpos : ∃ v ∈ db.vod, v.vod_name = n ∧ 0 < v.hot_rank) :
    ∃ w ∈ db.vod.filter (fun v => v.vod_name == n),
      (∀ v ∈ db.vod.filter (fun v => v.vod_name == n), hotGE w v) ∧
      (∀ v ∈ ((syncName db n).1).vod.filter (fun v => v.vod_name == n),
        (v.vod_id = w.vod_id →
          v.hot_rank = targetRankOf (db.vod.filter (fun v => v.vod_name == n))) ∧
        (v.vod_id ≠ w.vod_id → v.hot_rank ≤ 0)) ∧
      ((w.hot_rank = targetRankOf (db.vod.filter (fun v => v.vod_name == n)) ∧
        (∀ v ∈ db.vod.filter (fun v => v.vod_name == n),
          v.vod_id ≠ w.vod_id → v.hot_rank ≤ 0)) →
        ((syncName db n).1).vod.filter (fun v => v.vod_name == n) =
          db.vod.filter (fun v => v.vod_name == n)) := by
  rcases hpos with ⟨v0, hv0db, hv0n, hv0pos⟩
  have hv0g : v0 ∈ db.vod.filter (fun v => v.vod_name == n) := by
    rw [List.mem_filter]
    exact ⟨hv0db, by simp [hv0n]⟩
  have hgne : db.vod.filter (fun v => v.vod_name == n) ≠ [] :=
    fun hq => by rw [hq] at hv0g; exact (List.not_mem_nil v0) hv0g
  cases hsort : sortHot (db.vod.filter (fun v => v.vod_name == n)) with
  | nil =>
    exfalso
    have hperm := List.perm_insertionSort hotGE (db.vod.filter (fun v => v.vod_name == n))
    rw [show List.insertionSort hotGE (db.vod.filter (fun v => v.vod_name == n))
        = sortHot (db.vod.filter (fun v => v.vod_name == n)) from rfl, hsort] at hperm
    exact hgne (hperm.nil_eq).symm
  | cons newest rest =>
    have hperm : (newest :: rest).Perm (db.vod.filter (fun v => v.vod_name == n)) := by
      rw [← hsort]
      exact List.perm_insertionSort _ _
    have hnewg : newest ∈ db.vod.filter (fun v => v.vod_name == n) :=
      hperm.mem_iff.mp (List.mem_cons_self _ _)
    have hnewdb : newest ∈ db.vod := (List.mem_filter.mp hnewg).1
    have hhead : ∀ x ∈ db.vod.filter (fun v => v.vod_name == n), hotGE newest x :=
      sortHot_head_ge _ newest rest hsort
    have hT : targetRankOf (newest :: rest)
        = targetRankOf (db.vod.filter (fun v => v.vod_name == n)) := by
      rw [targetRankOf_eq_aux, targetRankOf_eq_aux]
      exact targetAux_perm hperm 0
    have hgids : ((db.vod.filter (fun v => v.vod_name == n)).map
        (fun v => v.vod_id)).Nodup := by
      have hsub := (List.filter_sublist (l := db.vod) (p := fun v => v.vod_name == n)).map
        (fun v => v.vod_id)
      exact hids.sublist hsub
    have hinj := List.inj_on_of_nodup_map hgids
    have hgnodup : (db.vod.filter (fun v => v.vod_name == n)).Nodup :=
      List.Nodup.of_map _ hgids
    have hsnodup : (newest :: rest).Nodup := hperm.nodup_iff.mpr hgnodup
    have hnotin : newest ∉ rest := (List.nodup_cons.mp hsnodup).1
    by_cases hneeds : ((newest.hot_rank != targetRankOf (newest :: rest))
        || rest.any (fun r => decide (0 < r.hot_rank))) = true
    · -- migration branch
      have hsync : (syncName db n).1 = { db with
          vod := List.map
            (fun v => if v.vod_id == newest.vod_id then
              { v with hot_rank := targetRankOf (newest :: rest) } else v)
            (List.map (fun v => if v.vod_name == n then { v with hot_rank := 0 } else v)
              db.vod) } := by
        simp only [syncName, hsort]
        rw [if_pos hneeds]
      have hg' : ((syncName db n).1).vod.filter (fun v => v.vod_name == n)
          = ((db.vod.filter (fun v => v.vod_name == n)).map
              (fun v => if v.vod_name == n then { v with hot_rank := 0 } else v)).map
            (fun v => if v.vod_id == newest.vod_id then
              { v with hot_rank := targetRankOf (newest :: rest) } else v) := by
        rw [hsync]
        show (List.map _ (List.map _ db.vod)).filter _ = _
        rw [filter_map_comm _ _ _ (fun x _ => by split <;> rfl),
          filter_map_comm _ _ _ (fun x _ => by split <;> rfl)]
      refine ⟨newest, hnewg, hhead, ?_, ?_⟩
      · intro v hv
        rw [hg'] at hv
        rcases List.mem_map.mp hv with ⟨x, hx, hgx⟩
        rcases List.mem_map.mp hx with ⟨u, hu, hfu⟩
        have hun : (u.vod_name == n) = true := (List.mem_filter.mp hu).2
        have hx_eq : x = { u with hot_rank := 0 } := by
          rw [← hfu, if_pos hun]
        by_cases hid : (x.vod_id == newest.vod_id) = true
        · have hv_eq : v = { x with hot_rank := targetRankOf (newest :: rest) } := by
            rw [← hgx, if_pos hid]
          constructor
          · intro _
            rw [hv_eq, hT]
          · intro hne
            exfalso
            apply hne
            rw [hv_eq]
            show x.vod_id = newest.vod_id
            simpa using hid
        · have hv_eq : v = x := by rw [← hgx, if_neg hid]
          constructor
          · intro heq
            exfalso
            apply hid
            rw [← hv_eq]
            simp [heq]
          · intro _
            rw [hv_eq, hx_eq]
      · rintro ⟨hwT, hothers⟩
        exfalso
        rcases Bool.or_eq_true_iff.mp hneeds with h | h
        · rw [hT] at h
          simp only [bne_iff_ne, ne_eq] at h
          exact h hwT
        · rcases List.any_eq_true.mp h with ⟨r, hr, hrpos⟩
          have hrpos' : 0 < r.hot_rank := by simpa using hrpos
          have hrg : r ∈ db.vod.filter (fun v => v.vod_name == n) :=
            hperm.mem_iff.mp (List.mem_cons_of_mem _ hr)
          have hrne : r ≠ newest := fun hq => hnotin (hq ▸ hr)
          have hrid : r.vod_id ≠ newest.vod_id := fun hq => hrne (hinj hrg hnewg hq)
          have := hothers r hrg hrid
          omega
    · -- no-op branch
      have hsync : (syncName db n).1 = db := by
        simp only [syncName, hsort]
        rw [if_neg hneeds]
      have hfalse : ((newest.hot_rank != targetRankOf (newest :: rest))
          || rest.any (fun r => decide (0 < r.hot_rank))) = false := by
        cases hq : ((newest.hot_rank != targetRankOf (newest :: rest))
          || rest.any (fun r => decide (0 < r.hot_rank))) with
        | false => rfl
        | true => exact absurd hq hneeds
      have hnb := Bool.or_eq_false_iff.mp hfalse
      have hwT : newest.hot_rank = targetRankOf (newest :: rest) := by
        have h1 := hnb.1
        simpa using h1
      have hrest : ∀ r ∈ rest, r.hot_rank ≤ 0 := by
        intro r hr
        have h2 := hnb.2
        rw [List.any_eq_false] at h2
        have := h2 r hr
        simp only [decide_eq_true_eq] at this
        omega
      refine ⟨newest, hnewg, hhead, ?_, ?_⟩
      · intro v hv
        rw [hsync] at hv
        constructor
        · intro heq
          have hveq : v = newest := hinj hv hnewg heq
          rw [hveq, ← hT]
          exact hwT
        · intro hne
          have hvne : v ≠ newest := fun hq => hne (by rw [hq])
          have hvin : v ∈ newest :: rest := hperm.mem_iff.mpr hv
          rcases List.mem_cons.mp hvin with hq | hq
          · exact absurd hq hvne
          · exact hrest v hq
      · intro _
        rw [hsync]

/-- The database component of the reconciler's fold over hot titles. -/
def syncFold (db : DB) (names : List String) : DB :=
  names.foldl (fun d m => (syncName d m).1) db

theorem sync_fold_db (names : List String) :
    ∀ db k, (names.foldl
        (fun acc n =>
          let r := syncName acc.1 n
          (r.1, acc.2 + (if r.2 then 1 else 0))) (db, k)).1
      = syncFold db names := by
  induction names with
  | nil => intro db k; rfl
  | cons m t ih =>
    intro db k
    simp only [List.foldl_cons]
    exact ih (syncName db m).1 _

theorem sync_db_eq (db : DB) :
    (sync_hot_rank_to_new_records db).1 = syncFold db (hotNames db) :=
  sync_fold_db (hotNames db) db 0

theorem syncFold_frame (names : List String) :
    ∀ db n, n ∉ names → (db.vod.map (fun v => v.vod_id)).Nodup →
      (syncFold db names).vod.filter (fun v => v.vod_name == n)
        = db.vod.filter (fun v => v.vod_name == n) ∧
      (syncFold db names).vod.map (fun v => v.vod_id)
        = db.vod.map (fun v => v.vod_id) := by
  induction names with
  | nil => intro db n _ _; exact ⟨rfl, rfl⟩
  | cons m t ih =>
    intro db n hn hids
    have hmn : m ≠ n := fun hq => hn (hq ▸ List.mem_cons_self _ _)
    have hframe := syncName_frame db m n hmn hids
    have hids2 : (((syncName db m).1).vod.map (fun v => v.vod_id)).Nodup := by
      rw [syncName_vod_ids]
      exact hids
    have hrec := ih ((syncName db m).1) n (fun hq => hn (List.mem_cons_of_mem m hq)) hids2
    constructor
    · show (syncFold ((syncName db m).1) t).vod.filter _ = _
      rw [hrec.1, hframe]
    · show (syncFold ((syncName db m).1) t).vod.map _ = _
      rw [hrec.2, syncName_vod_ids]

/-- C2 (amended): hot-rank reconciliation, with "nonzero" read as the
code's "positive".  For every title with at least one record holding a
positive promotional rank: the target rank is the maximum positive rank
observed across the group; after reconciliation the newest group member
(under timestamp descending, record id descending) holds exactly the
target rank, every other member holds a non-positive rank (so at most
one record of the title holds a positive rank), and a group already in
this state is left unchanged. -/
theorem claim2_hot_rank_reconciliation (db : DB) (n : String)
    (hids : (db.vod.map (fun v => v.vod_id)).Nodup)
    (hpos : ∃ v ∈ db.vod, v.vod_name = n ∧ 0 < v.hot_rank) :
    0 < targetRankOf (db.vod.filter (fun v => v.vod_name == n)) ∧
    (∃ m ∈ db.vod.filter (fun v => v.vod_name == n),
      m.hot_rank = targetRankOf (db.vod.filter (fun v => v.vod_name == n))) ∧
    (∀ v ∈ db.vod.filter (fun v => v.vod_name == n),
      v.hot_rank ≤ targetRankOf (db.vod.filter (fun v => v.vod_name == n))) ∧
    ∃ w ∈ db.vod.filter (fun v => v.vod_name == n),
      (∀ v ∈ db.vod.filter (fun v => v.vod_name == n), hotGE w v) ∧
      (∀ v ∈ ((sync_hot_rank_to_new_records db).1).vod.filter (fun v => v.vod_name == n),
        (v.vod_id = w.vod_id →
          v.hot_rank = targetRankOf (db.vod.filter (fun v => v.vod_name == n))) ∧
        (v.vod_id ≠ w.vod_id → v.hot_rank ≤ 0)) ∧
      ((w.hot_rank = targetRankOf (db.vod.filter (fun v => v.vod_name == n)) ∧
        (∀ v ∈ db.vod.filter (fun v => v.vod_name == n),
          v.vod_id ≠ w.vod_id → v.hot_rank ≤ 0)) →
        ((sync_hot_rank_to_new_records db).1).vod.filter (fun v => v.vod_name == n)
          = db.vod.filter (fun v => v.vod_name == n)) := by
  rcases hpos with ⟨v0, hv0db, hv0n, hv0pos⟩
  have hv0g : v0 ∈ db.vod.filter (fun v => v.vod_name == n) := by
    rw [List.mem_filter]
    exact ⟨hv0db, by simp [hv0n]⟩
  have hTpos : 0 < targetRankOf (db.vod.filter (fun v => v.vod_name == n)) := by
    have h1 := targetAux_ge_pos (db.vod.filter (fun v => v.vod_name == n)) 0 v0 hv0g hv0pos
    rw [targetRankOf_eq_aux]
    omega
  refine ⟨hTpos, ?_, ?_, ?_⟩
  · rcases targetAux_cases (db.vod.filter (fun v => v.vod_name == n)) 0 with h | ⟨v, hv, he, hp⟩
    · exfalso
      rw [targetRankOf_eq_aux, h] at hTpos
      omega
    · exact ⟨v, hv, by rw [targetRankOf_eq_aux, he]⟩
  · intro v hv
    by_cases hp : 0 < v.hot_rank
    · rw [targetRankOf_eq_aux]
      exact targetAux_ge_pos _ 0 v hv hp
    · omega
  · have hmem : n ∈ hotNames db := (hotNames_mem db n).mpr ⟨v0, hv0db, hv0n, hv0pos⟩
    rcases List.append_of_mem hmem with ⟨pre, post, hsplit⟩
    have hnodup := hotNames_nodup db
    rw [hsplit, List.nodup_append] at hnodup
    rcases hnodup with ⟨hpre, hcons, hdisj⟩
    have npost : n ∉ post := (List.nodup_cons.mp hcons).1
    have npre : n ∉ pre := fun hq => hdisj hq (List.mem_cons_self _ _)
    have hframe1 := syncFold_frame pre db n npre hids
    have hids1 : ((syncFold db pre).vod.map (fun v => v.vod_id)).Nodup := by
      rw [hframe1.2]
      exact hids
    have hv0g1 : v0 ∈ (syncFold db pre).vod.filter (fun v => v.vod_name == n) := by
      rw [hframe1.1]
      exact hv0g
    have hpos1 : ∃ v ∈ (syncFold db pre).vod, v.vod_name = n ∧ 0 < v.hot_rank :=
      ⟨v0, (List.mem_filter.mp hv0g1).1, hv0n, hv0pos⟩
    rcases syncName_spec (syncFold db pre) n hids1 hpos1 with ⟨w, hwg, hhead, hmid, himp⟩
    rw [hframe1.1] at hwg hhead hmid himp
    have hids2 : (((syncName (syncFold db pre) n).1).vod.map (fun v => v.vod_id)).Nodup := by
      rw [syncName_vod_ids]
      exact hids1
    have hframe2 := syncFold_frame post ((syncName (syncFold db pre) n).1) n npost hids2
    have hchain : syncFold db (pre ++ n :: post)
        = syncFold ((syncName (syncFold db pre) n).1) post := by
      show List.foldl _ db (pre ++ n :: post) = _
      rw [List.foldl_append]
      rfl
    have hfinal : ((sync_hot_rank_to_new_records db).1).vod.filter
        (fun v => v.vod_name == n)
        = ((syncName (syncFold db pre) n).1).vod.filter (fun v => v.vod_name == n) := by
      rw [sync_db_eq, hsplit, hchain]
      exact hframe2.1
    refine ⟨w, hwg, hhead, ?_, ?_⟩
    · intro v hv
      rw [hfinal] at hv
      exact hmid v hv
    · intro h
      rw [hfinal]
      exact himp h

/-- C2 witness: a concrete title whose stale record holds rank 7 and
whose newest record holds rank 0 before reconciliation. -/
def dbHotW : DB :=
  { config := [srcWj],
    vod := [{ vodC6A with vod_id := 1, vod_name := "A", vod_time := 50, hot_rank := 7 },
            { vodC6A with
              vod_id := 2, res_unique_id := "wj_2", vod_name := "A",
              vod_time := 90, hot_rank := 0 }],
    search := [], mergeLog := [], nextVodId := 3 }

theorem claim2_hot_rank_reconciliation_witness :
    0 < targetRankOf (dbHotW.vod.filter (fun v => v.vod_name == "A")) ∧
    (∃ m ∈ dbHotW.vod.filter (fun v => v.vod_name == "A"),
      m.hot_rank = targetRankOf (dbHotW.vod.filter (fun v => v.vod_name == "A"))) ∧
    (∀ v ∈ dbHotW.vod.filter (fun v => v.vod_name == "A"),
      v.hot_rank ≤ targetRankOf (dbHotW.vod.filter (fun v => v.vod_name == "A"))) ∧
    ∃ w ∈ dbHotW.vod.filter (fun v => v.vod_name == "A"),
      (∀ v ∈ dbHotW.vod.filter (fun v => v.vod_name == "A"), hotGE w v) ∧
      (∀ v ∈ ((sync_hot_rank_to_new_records dbHotW).1).vod.filter
          (fun v => v.vod_name == "A"),
        (v.vod_id = w.vod_id →
          v.hot_rank = targetRankOf (dbHotW.vod.filter (fun v => v.vod_name == "A"))) ∧
        (v.vod_id ≠ w.vod_id → v.hot_rank ≤ 0)) ∧
      ((w.hot_rank = targetRankOf (dbHotW.vod.filter (fun v => v.vod_name == "A")) ∧
        (∀ v ∈ dbHotW.vod.filter (fun v => v.vod_name == "A"),
          v.vod_id ≠ w.vod_id → v.hot_rank ≤ 0)) →
        ((sync_hot_rank_to_new_records dbHotW).1).vod.filter
          (fun v => v.vod_name == "A")
          = dbHotW.vod.filter (fun v => v.vod_name == "A")) :=
  claim2_hot_rank_reconciliation dbHotW "A" (by decide) (by decide)

/-! ## Claim C1 — merge pass convergence: auxiliary lemmas -/

theorem mergeStep_db (now : Int) (acc : DB × Nat × Nat)
    (g : (String × String) × List Nat) :
    (mergeStep now acc g).1
      = (merge_duplicate_group_with_log acc.1 g.2 (mergeKeyStr g.1) now).1 := by
  simp only [mergeStep]
  split <;> rfl

theorem distinctKeys_fold_mem (l : List Vod) :
    ∀ ks x, (x ∈ l.foldl
        (fun ks v => if ks.contains (vodKey v) then ks else ks ++ [vodKey v]) ks
      ↔ (x ∈ ks ∨ ∃ v ∈ l, vodKey v = x)) := by
  induction l with
  | nil => simp
  | cons r t ih =>
    intro ks x
    simp only [List.foldl_cons]
    by_cases hc : ks.contains (vodKey r) = true
    · rw [if_pos hc, ih]
      constructor
      · rintro (h | ⟨v, hv, he⟩)
        · exact Or.inl h
        · exact Or.inr ⟨v, List.mem_cons_of_mem r hv, he⟩
      · rintro (h | ⟨v, hv, he⟩)
        · exact Or.inl h
        · rcases List.mem_cons.mp hv with hv | hv
          · subst hv
            left
            rw [← he]
            simpa using hc
          · exact Or.inr ⟨v, hv, he⟩
    · rw [if_neg hc, ih]
      constructor
      · rintro (h | ⟨v, hv, he⟩)
        · rcases List.mem_append.mp h with h | h
          · exact Or.inl h
          · exact Or.inr ⟨r, List.mem_cons_self _ _, (List.mem_singleton.mp h).symm⟩
        · exact Or.inr ⟨v, List.mem_cons_of_mem r hv, he⟩
      · rintro (h | ⟨v, hv, he⟩)
        · exact Or.inl (List.mem_append.mpr (Or.inl h))
        · rcases List.mem_cons.mp hv with hv | hv
          · subst hv
            exact Or.inl (List.mem_append.mpr (Or.inr (by simp [he])))
          · exact Or.inr ⟨v, hv, he⟩

theorem distinctKeys_mem (l : List Vod) (x : String × String) :
    x ∈ distinctKeys l ↔ ∃ v ∈ l, vodKey v = x := by
  have h := distinctKeys_fold_mem l [] x
  simpa [distinctKeys] using h

theorem distinctKeys_fold_nodup (l : List Vod) :
    ∀ ks : List (String × String), ks.Nodup →
      (l.foldl (fun ks v => if ks.contains (vodKey v) then ks else ks ++ [vodKey v])
        ks).Nodup := by
  induction l with
  | nil => intro ks h; exact h
  | cons r t ih =>
    intro ks h
    simp only [List.foldl_cons]
    by_cases hc : ks.contains (vodKey r) = true
    · rw [if_pos hc]
      exact ih ks h
    · rw [if_neg hc]
      apply ih
      rw [List.nodup_append]
      refine ⟨h, List.nodup_singleton _, ?_⟩
      intro a ha hb
      rw [List.mem_singleton.mp hb] at ha
      exact hc (by simpa using ha)

theorem distinctKeys_nodup (l : List Vod) : (distinctKeys l).Nodup :=
  distinctKeys_fold_nodup l [] List.nodup_nil

theorem find_duplicate_groups_perm (db : DB) :
    (find_duplicate_groups db).Perm
      (((distinctKeys db.vod).map (fun k => (k, groupIds db k))).filter
        (fun g => 1 < g.2.length)) := by
  simp only [find_duplicate_groups]
  exact List.perm_insertionSort _ _

theorem find_duplicate_groups_mem (db : DB) (g : (String × String) × List Nat)
    (hg : g ∈ find_duplicate_groups db) :
    g.2 = groupIds db g.1 ∧ 1 < g.2.length := by
  have h := (find_duplicate_groups_perm db).mem_iff.mp hg
  rcases List.mem_filter.mp h with ⟨hin, hlen⟩
  rcases List.mem_map.mp hin with ⟨k, _, he⟩
  refine ⟨?_, by simpa using hlen⟩
  rw [← he]

theorem find_duplicate_groups_keys_nodup (db : DB) :
    ((find_duplicate_groups db).map (fun g => g.1)).Nodup := by
  have hperm := (find_duplicate_groups_perm db).map (fun g => g.1)
  rw [hperm.nodup_iff]
  have hsub : List.Sublist
      ((((distinctKeys db.vod).map (fun k => (k, groupIds db k))).filter
        (fun g => 1 < g.2.length)).map (fun g => g.1))
      (((distinctKeys db.vod).map (fun k => (k, groupIds db k))).map (fun g => g.1)) :=
    (List.filter_sublist _).map _
  have heq : ((distinctKeys db.vod).map (fun k => (k, groupIds db k))).map
      (fun g => g.1) = distinctKeys db.vod := by
    rw [List.map_map]
    exact List.map_id _
  have hnodup : (((distinctKeys db.vod).map (fun k => (k, groupIds db k))).map
      (fun g => g.1)).Nodup := by
    rw [heq]
    exact distinctKeys_nodup db.vod
  exact hnodup.sublist hsub

theorem find_duplicate_groups_complete (db : DB) (k : String × String)
    (hdup : 1 < (db.vod.filter (fun v => vodKey v == k)).length) :
    (k, groupIds db k) ∈ find_duplicate_groups db := by
  rw [(find_duplicate_groups_perm db).mem_iff]
  rw [List.mem_filter]
  constructor
  · rw [List.mem_map]
    refine ⟨k, ?_, rfl⟩
    rw [distinctKeys_mem]
    have hne : db.vod.filter (fun v => vodKey v == k) ≠ [] := by
      intro hq
      rw [hq] at hdup
      simp at hdup
    rcases List.exists_mem_of_ne_nil _ hne with ⟨v, hv⟩
    refine ⟨v, (List.mem_filter.mp hv).1, ?_⟩
    have h2 := (List.mem_filter.mp hv).2
    simpa using h2
  · simp only [groupIds, List.length_map]
    simpa using hdup

theorem scoreScaled_nonneg (v : Vod) (h : 0 ≤ v.vod_time) : 0 ≤ scoreScaled v := by
  simp only [scoreScaled]
  split <;> split <;> split <;> omega

theorem sel_fold_some (l : List Vod) :
    ∀ (b : Option Nat × Int) (p : Nat), (l.foldl selStep b).1 = some p →
      b.1 = some p ∨ ∃ w ∈ l, w.vod_id = p := by
  induction l with
  | nil => intro b p h; exact Or.inl h
  | cons v t ih =>
    intro b p h
    simp only [List.foldl_cons] at h
    rcases ih (selStep b v) p h with h2 | ⟨w, hw, he⟩
    · simp only [selStep] at h2
      split at h2
      · right
        injection h2 with hq
        exact ⟨v, List.mem_cons_self _ _, hq⟩
      · exact Or.inl h2
    · exact Or.inr ⟨w, List.mem_cons_of_mem v hw, he⟩

/-- When the group is nonempty and its timestamps are nonnegative,
primary selection returns the id of some group member. -/
theorem select_primary_mem (db : DB) (ids : List Nat)
    (hne : groupRows db ids ≠ [])
    (ht : ∀ v ∈ groupRows db ids, 0 ≤ v.vod_time) :
    ∃ w ∈ groupRows db ids, select_primary_record db ids = some w.vod_id := by
  have hex : ∃ v ∈ groupRows db ids,
      ((none : Option Nat), (-1000000 : Int)).2 < scoreScaled v := by
    rcases List.exists_mem_of_ne_nil (groupRows db ids) hne with ⟨x, hx⟩
    refine ⟨x, hx, ?_⟩
    have := scoreScaled_nonneg x (ht x hx)
    show (-1000000 : Int) < scoreScaled x
    omega
  rcases sel_fold_first (groupRows db ids) (none, -1000000) hex with
    ⟨w, hwmem, _, _, hwfold⟩
  refine ⟨w, hwmem, ?_⟩
  show ((groupRows db ids).foldl selStep (none, -1000000)).1 = some w.vod_id
  rw [hwfold]

/-- With unique ids, the rows selected by the group's own id list are
exactly the group. -/
theorem groupRows_of_key (db : DB) (k : String × String)
    (hids : (db.vod.map (fun v => v.vod_id)).Nodup) :
    groupRows db ((db.vod.filter (fun v => vodKey v == k)).map (fun v => v.vod_id))
      = db.vod.filter (fun v => vodKey v == k) := by
  unfold groupRows
  apply List.filter_congr
  intro v hv
  by_cases hk : (vodKey v == k) = true
  · rw [hk]
    have : v ∈ db.vod.filter (fun v => vodKey v == k) := List.mem_filter.mpr ⟨hv, hk⟩
    simpa using List.mem_map.mpr ⟨v, this, rfl⟩
  · have hkf : (vodKey v == k) = false := by
      cases hq : (vodKey v == k) with
      | true => exact absurd hq hk
      | false => rfl
    rw [hkf]
    have : v.vod_id ∉ (db.vod.filter (fun v => vodKey v == k)).map (fun v => v.vod_id) := by
      intro hmem
      rcases List.mem_map.mp hmem with ⟨u, hu, hue⟩
      have huv : u = v :=
        List.inj_on_of_nodup_map hids (List.mem_filter.mp hu).1 hv hue
      rw [huv] at hu
      have := (List.mem_filter.mp hu).2
      rw [hkf] at this
      exact Bool.noConfusion this
    simpa using this

/-- In a list with unique ids, filtering by one member's id yields
exactly that member. -/
theorem filter_id_unique (l : List Vod) (w : Vod) (hw : w ∈ l)
    (hnd : (l.map (fun v => v.vod_id)).Nodup) :
    l.filter (fun v => v.vod_id == w.vod_id) = [w] := by
  induction l with
  | nil => exact absurd hw (List.not_mem_nil w)
  | cons a t ih =>
    rw [List.map_cons, List.nodup_cons] at hnd
    rcases List.mem_cons.mp hw with he | he
    · subst he
      rw [List.filter_cons]
      rw [if_pos (by simp)]
      have hrest : t.filter (fun v => v.vod_id == w.vod_id) = [] := by
        rw [List.filter_eq_nil_iff]
        intro v hv hq
        apply hnd.1
        rw [List.mem_map]
        exact ⟨v, hv, by simpa using hq.symm⟩
      rw [hrest]
    · have hane : a.vod_id ≠ w.vod_id := by
        intro hq
        apply hnd.1
        rw [List.mem_map]
        exact ⟨w, he, hq.symm⟩
      rw [List.filter_cons, if_neg (by simpa using hane)]
      exact ih he hnd.2

theorem merge_none (db : DB) (ids : List Nat) (key : String) (now : Int)
    (h : select_primary_record db ids = none) :
    merge_duplicate_group_with_log db ids key now = (db, none, 0) := by
  unfold merge_duplicate_group_with_log
  rw [h]

theorem merge_some (db : DB) (ids : List Nat) (key : String) (now : Int) (p : Nat)
    (h : select_primary_record db ids = some p) :
    merge_duplicate_group_with_log db ids key now =
      ({ db with
          vod := (db.vod.map (fun v =>
              if v.vod_id == p then
                { v with vod_play_from := (merge_play_data db ids).1,
                         vod_play_url := (merge_play_data db ids).2 }
              else v)).filter
            (fun v => !((ids.filter (fun vid => vid != p)).contains v.vod_id)),
          search := db.search.filter
            (fun e => !((ids.filter (fun vid => vid != p)).contains e.1)),
          mergeLog := db.mergeLog ++
            [{ primary_vod_id := p, merged_vod_ids := ids,
               sourcePrefixes := String.intercalate ","
                 ((joinRows db ids).map (fun q => q.2)),
               merge_timestamp := now, merge_key := key }] },
        some p, (ids.filter (fun vid => vid != p)).length) := by
  unfold merge_duplicate_group_with_log
  rw [h]

theorem select_some_mem_ids (db : DB) (ids : List Nat) (p : Nat)
    (h : select_primary_record db ids = some p) : p ∈ ids := by
  unfold select_primary_record at h
  rcases sel_fold_some (groupRows db ids) (none, -1000000) p h with h2 | ⟨w, hw, he⟩
  · exact Option.noConfusion h2
  · unfold groupRows at hw
    have hc := (List.mem_filter.mp hw).2
    rw [he] at hc
    simpa using hc

/-- The database component of a merge keeps only records derived from
the original table, preserving id, timestamp, source and merge key. -/
theorem merge_vod_trace (db : DB) (ids : List Nat) (key : String) (now : Int) :
    ∀ v2 ∈ (merge_duplicate_group_with_log db ids key now).1.vod,
      ∃ v ∈ db.vod, v2.vod_id = v.vod_id ∧ v2.vod_time = v.vod_time ∧
        v2.res_source_id = v.res_source_id ∧ vodKey v2 = vodKey v := by
  cases hsel : select_primary_record db ids with
  | none =>
    rw [merge_none db ids key now hsel]
    intro v2 hv2
    exact ⟨v2, hv2, rfl, rfl, rfl, rfl⟩
  | some p =>
    rw [merge_some db ids key now p hsel]
    intro v2 hv2
    rcases List.mem_filter.mp hv2 with ⟨hmap, _⟩
    rcases List.mem_map.mp hmap with ⟨v, hv, he⟩
    refine ⟨v, hv, ?_⟩
    rw [← he]
    split <;> exact ⟨rfl, rfl, rfl, rfl⟩

theorem merge_config (db : DB) (ids : List Nat) (key : String) (now : Int) :
    (merge_duplicate_group_with_log db ids key now).1.config = db.config := by
  cases hsel : select_primary_record db ids with
  | none => rw [merge_none db ids key now hsel]
  | some p => rw [merge_some db ids key now p hsel]

theorem merge_ids_sublist (db : DB) (ids : List Nat) (key : String) (now : Int) :
    List.Sublist
      ((merge_duplicate_group_with_log db ids key now).1.vod.map (fun v => v.vod_id))
      (db.vod.map (fun v => v.vod_id)) := by
  cases hsel : select_primary_record db ids with
  | none =>
    rw [merge_none db ids key now hsel]
  | some p =>
    rw [merge_some db ids key now p hsel]
    have h1 := (List.filter_sublist (p :=
        fun v => !((ids.filter (fun vid => vid != p)).contains v.vod_id))
      (db.vod.map (fun v =>
        if v.vod_id == p then
          { v with vod_play_from := (merge_play_data db ids).1,
                   vod_play_url := (merge_play_data db ids).2 }
        else v))).map (fun v => v.vod_id)
    have h2 : ((db.vod.map (fun v =>
        if v.vod_id == p then
          { v with vod_play_from := (merge_play_data db ids).1,
                   vod_play_url := (merge_play_data db ids).2 }
        else v)).map (fun v => v.vod_id)) = db.vod.map (fun v => v.vod_id) := by
      rw [List.map_map]
      apply List.map_congr_left
      intro v _
      show (if v.vod_id == p then _ else v).vod_id = v.vod_id
      split <;> rfl
    rw [h2] at h1
    exact h1

theorem merge_search_subset (db : DB) (ids : List Nat) (key : String) (now : Int) :
    ∀ e ∈ (merge_duplicate_group_with_log db ids key now).1.search, e ∈ db.search := by
  cases hsel : select_primary_record db ids with
  | none =>
    rw [merge_none db ids key now hsel]
    exact fun e he => he
  | some p =>
    rw [merge_some db ids key now p hsel]
    exact fun e he => (List.mem_filter.mp he).1

/-- A key is in the `sources_data` accumulation iff some joined row with
nonempty play url carries it. -/
theorem playKeys_fold_mem (rows : List (Vod × String)) :
    ∀ (acc : List (String × String)) (x : String),
      (x ∈ (rows.foldl addPlayRow acc).map (fun q => q.1) ↔
        x ∈ acc.map (fun q => q.1) ∨
          ∃ row ∈ rows, row.1.vod_play_url ≠ "" ∧ row.2 = x) := by
  induction rows with
  | nil => simp
  | cons r t ih =>
    intro acc x
    simp only [List.foldl_cons]
    rw [ih (addPlayRow acc r) x]
    constructor
    · rintro (h | ⟨row, hrow, hurl, he⟩)
      · unfold addPlayRow at h
        split at h
        · next hc =>
          rw [List.map_append, List.mem_append] at h
          rcases h with h1 | h1
          · exact Or.inl h1
          · right
            refine ⟨r, List.mem_cons_self _ _, ?_, ?_⟩
            · have hb := (Bool.and_eq_true _ _).mp hc
              simpa using hb.1
            · have hx : x = r.2 := by simpa using h1
              rw [hx]
        · exact Or.inl h
      · exact Or.inr ⟨row, List.mem_cons_of_mem r hrow, hurl, he⟩
    · rintro (h | ⟨row, hrow, hurl, he⟩)
      · left
        unfold addPlayRow
        split
        · rw [List.map_append, List.mem_append]
          exact Or.inl h
        · exact h
      · rcases List.mem_cons.mp hrow with hre | hrt
      
        · subst hre
          left
          unfold addPlayRow
          split
          · rw [List.map_append, List.mem_append]
            right
            rw [← he]
            simp
          · next hc =>
            rw [Bool.and_eq_true] at hc
            by_cases hu : (row.1.vod_play_url != "") = true
            · have hns : ¬ (acc.find? (fun q => q.1 == row.2)).isNone = true :=
                fun hq => hc ⟨hu, hq⟩
              rw [Option.isNone_iff_eq_none] at hns
              rcases Option.ne_none_iff_exists.mp hns with ⟨q, hq⟩
              have hqmem := List.mem_of_find?_eq_some hq.symm
              have hqkey : q.1 = row.2 := by
                have := List.find?_some hq.symm
                simpa using this
              rw [← he, ← hqkey]
              exact List.mem_map.mpr ⟨q, hqmem, rfl⟩
            · have hempty : row.1.vod_play_url = "" := by simpa using hu
              exact absurd hempty hurl
        · exact Or.inr ⟨row, hrt, hurl, he⟩

/-- The keys of the `sources_data` accumulation are distinct (dict
keys). -/
theorem playKeys_fold_nodup (rows : List (Vod × String)) :
    ∀ (acc : List (String × String)), (acc.map (fun q => q.1)).Nodup →
      ((rows.foldl addPlayRow acc).map (fun q => q.1)).Nodup := by
  induction rows with
  | nil => exact fun acc h => h
  | cons r t ih =>
    intro acc hacc
    simp only [List.foldl_cons]
    apply ih
    unfold addPlayRow
    split
    · next hc =>
      rw [Bool.and_eq_true] at hc
      have hn : (acc.find? (fun q => q.1 == r.2)) = none :=
        Option.isNone_iff_eq_none.mp hc.2
      have hnm : r.2 ∉ acc.map (fun q => q.1) := by
        intro hmem
        rcases List.mem_map.mp hmem with ⟨q, hq, hqe⟩
        have := List.find?_eq_none.mp hn q hq
        exact this (by simpa using hqe)
      rw [List.map_append]
      simp [List.nodup_append, hacc, hnm]
    · exact hacc

/-- `merge_play_data`'s first component is the `'$$$'`-join of a sorted,
duplicate-free list holding exactly the stripped prefixes of the group
members that carry play data. -/
theorem merge_play_from_spec (db : DB) (ids : List Nat) :
    ∃ ps : List String, List.Sorted strLe ps ∧ ps.Nodup ∧
      (∀ s, (s ∈ ps ↔ ∃ m ∈ groupRows db ids, m.vod_play_url ≠ "" ∧
        (resIdPrefixOf db m.res_source_id).map rstripUnderscores = some s)) ∧
      (merge_play_data db ids).1 = String.intercalate "$$$" ps := by
  refine ⟨List.insertionSort strLe
      (((joinRows db ids).foldl addPlayRow []).map (fun q => q.1)),
    List.sorted_insertionSort strLe _, ?_, ?_, ?_⟩
  · exact (List.perm_insertionSort strLe _).nodup_iff.mpr
      (playKeys_fold_nodup (joinRows db ids) [] (by simp))
  · intro s
    rw [(List.perm_insertionSort strLe _).mem_iff,
      playKeys_fold_mem (joinRows db ids) [] s]
    simp only [List.map_nil, List.not_mem_nil, false_or]
    constructor
    · rintro ⟨row, hrow, hurl, he⟩
      unfold joinRows at hrow
      rcases List.mem_filterMap.mp hrow with ⟨m, hm, hf⟩
      rcases Option.map_eq_some'.mp hf with ⟨p0, hp0, hpe⟩
      refine ⟨m, hm, ?_, ?_⟩
      · rw [← hpe] at hurl
        exact hurl
      · rw [hp0, ← he, ← hpe]
        rfl
    · rintro ⟨m, hm, hurl, hpre⟩
      rcases Option.map_eq_some'.mp hpre with ⟨p0, hp0, hpe⟩
      refine ⟨(m, rstripUnderscores p0), ?_, hurl, hpe⟩
      unfold joinRows
      apply List.mem_filterMap.mpr
      exact ⟨m, hm, by rw [hp0]; rfl⟩
  · rfl

/-- Filtering by `p` after a filter by a predicate implied by `p` is
filtering by `p` alone. -/
theorem filter_of_stronger (p q : Vod → Bool) (l : List Vod)
    (h : ∀ v ∈ l, p v = true → q v = true) :
    (l.filter q).filter p = l.filter p := by
  induction l with
  | nil => rfl
  | cons a t ih =>
    have hstep : ∀ v ∈ t, p v = true → q v = true :=
      fun v hv => h v (List.mem_cons_of_mem a hv)
    by_cases hqa : q a = true
    · rw [List.filter_cons, if_pos hqa]
      by_cases hpa : p a = true
      · rw [List.filter_cons, if_pos hpa, List.filter_cons, if_pos hpa, ih hstep]
      · rw [List.filter_cons, if_neg hpa, List.filter_cons, if_neg hpa, ih hstep]
    · have hpa : ¬ p a = true := fun hpa => hqa (h a (List.mem_cons_self _ _) hpa)
      rw [List.filter_cons, if_neg hqa, List.filter_cons, if_neg hpa, ih hstep]

/-- Records of distinct keys never appear in another key's id group. -/
theorem key_ids_disjoint (db : DB)
    (hids : (db.vod.map (fun v => v.vod_id)).Nodup)
    (k1 k2 : String × String) (hk : k1 ≠ k2) :
    ∀ v ∈ db.vod, (vodKey v == k2) = true →
      ((db.vod.filter (fun u => vodKey u == k1)).map
        (fun u => u.vod_id)).contains v.vod_id = false := by
  intro v hv hkey
  have hnm : v.vod_id ∉ (db.vod.filter (fun u => vodKey u == k1)).map
      (fun u => u.vod_id) := by
    intro hmem
    rcases List.mem_map.mp hmem with ⟨u, hu, hue⟩
    have huv : u = v :=
      List.inj_on_of_nodup_map hids (List.mem_filter.mp hu).1 hv hue
    have hu1 := (List.mem_filter.mp hu).2
    rw [huv] at hu1
    apply hk
    have h1 : vodKey v = k1 := by simpa using hu1
    have h2 : vodKey v = k2 := by simpa using hkey
    rw [← h1, h2]
  simpa using hnm

/-- Distinct keys with a nonempty first group have distinct id lists. -/
theorem key_ids_ne (db : DB)
    (hids : (db.vod.map (fun v => v.vod_id)).Nodup)
    (k1 k2 : String × String) (hk : k1 ≠ k2)
    (hne : db.vod.filter (fun v => vodKey v == k1) ≠ []) :
    (db.vod.filter (fun v => vodKey v == k1)).map (fun v => v.vod_id)
      ≠ (db.vod.filter (fun v => vodKey v == k2)).map (fun v => v.vod_id) := by
  intro heq
  rcases List.exists_mem_of_ne_nil _ hne with ⟨u, hu⟩
  have h1 : u.vod_id ∈ (db.vod.filter (fun v => vodKey v == k1)).map
      (fun v => v.vod_id) := List.mem_map.mpr ⟨u, hu, rfl⟩
  rw [heq] at h1
  rcases List.mem_map.mp h1 with ⟨w, hw, hwe⟩
  have hwu : w = u :=
    List.inj_on_of_nodup_map hids (List.mem_filter.mp hw).1
      (List.mem_filter.mp hu).1 hwe
  apply hk
  have hk1 : vodKey u = k1 := by simpa using (List.mem_filter.mp hu).2
  have hk2 : vodKey w = k2 := by simpa using (List.mem_filter.mp hw).2
  rw [hwu] at hk2
  rw [← hk1, hk2]

/-- A merge leaves the records of any key disjoint from its id group
untouched. -/
theorem merge_key_frame (db : DB) (ids : List Nat) (key : String) (now : Int)
    (k' : String × String)
    (hdisj : ∀ v ∈ db.vod, (vodKey v == k') = true →
      ids.contains v.vod_id = false) :
    (merge_duplicate_group_with_log db ids key now).1.vod.filter
        (fun v => vodKey v == k')
      = db.vod.filter (fun v => vodKey v == k') := by
  cases hsel : select_primary_record db ids with
  | none => rw [merge_none db ids key now hsel]
  | some p =>
    rw [merge_some db ids key now p hsel]
    have hp : p ∈ ids := select_some_mem_ids db ids p hsel
    rw [filter_of_stronger]
    · apply filter_map_fixed
      · intro v _
        show (vodKey (if v.vod_id == p then
            { v with vod_play_from := (merge_play_data db ids).1,
                     vod_play_url := (merge_play_data db ids).2 } else v) == k')
          = (vodKey v == k')
        split <;> rfl
      · intro v hv hkey
        have hvid : ids.contains v.vod_id = false := hdisj v hv hkey
        have hvp : v.vod_id ≠ p := by
          intro hq
          rw [hq] at hvid
          have : p ∉ ids := by simpa using hvid
          exact this hp
        rw [if_neg (by simpa using hvp)]
    · intro v hv hkey
      rcases List.mem_map.mp hv with ⟨u, hu, hue⟩
      have hukey : (vodKey u == k') = true := by
        rw [← hue] at hkey
        revert hkey
        show (vodKey (if u.vod_id == p then _ else u) == k') = true →
          (vodKey u == k') = true
        split <;> exact fun h => h
      have huid : ids.contains u.vod_id = false := hdisj u hu hukey
      have hvid : v.vod_id = u.vod_id := by
        rw [← hue]
        show (if u.vod_id == p then _ else u).vod_id = u.vod_id
        split <;> rfl
      have hnm : u.vod_id ∉ ids := by simpa using huid
      have hnm2 : v.vod_id ∉ ids ∨ v.vod_id = p := Or.inl (by rw [hvid]; exact hnm)
      simpa using hnm2

/-- The merge log rows carrying a different id list are unchanged by a
merge. -/
theorem merge_log_filter (db : DB) (ids : List Nat) (key : String) (now : Int)
    (ids0 : List Nat) (hne : ids ≠ ids0) :
    (merge_duplicate_group_with_log db ids key now).1.mergeLog.filter
        (fun e => e.merged_vod_ids == ids0)
      = db.mergeLog.filter (fun e => e.merged_vod_ids == ids0) := by
  cases hsel : select_primary_record db ids with
  | none => rw [merge_none db ids key now hsel]
  | some p =>
    rw [merge_some db ids key now p hsel]
    show (db.mergeLog ++ [({ primary_vod_id := p, merged_vod_ids := ids,
                             sourcePrefixes := String.intercalate ","
                               ((joinRows db ids).map (fun q => q.2)),
                             merge_timestamp := now,
                             merge_key := key } : MergeLogEntry)]).filter
        (fun e => e.merged_vod_ids == ids0)
      = db.mergeLog.filter (fun e => e.merged_vod_ids == ids0)
    rw [List.filter_append]
    have hsingle : ([({ primary_vod_id := p, merged_vod_ids := ids,
                        sourcePrefixes := String.intercalate ","
                          ((joinRows db ids).map (fun q => q.2)),
                        merge_timestamp := now,
                        merge_key := key } : MergeLogEntry)].filter
        (fun e => e.merged_vod_ids == ids0)) = [] := by
      simp [hne]
    rw [hsingle, List.append_nil]

/-- Full characterisation of one duplicate-group merge: some member
becomes the primary, it alone keeps the key, its play-from field is the
sorted join of the group's source prefixes, the other members vanish
from both `sc_vod` and `sc_search`, and one log entry is appended. -/
theorem merge_group_effect (db : DB) (now : Int) (k : String × String) (key : String)
    (ids : List Nat)
    (hid_eq : ids = (db.vod.filter (fun v => vodKey v == k)).map (fun v => v.vod_id))
    (hids : (db.vod.map (fun v => v.vod_id)).Nodup)
    (htime : ∀ v ∈ db.vod, 0 ≤ v.vod_time)
    (hne : db.vod.filter (fun v => vodKey v == k) ≠ []) :
    ∃ p ∈ ids,
      (merge_duplicate_group_with_log db ids key now).2.1 = some p ∧
      (((merge_duplicate_group_with_log db ids key now).1.vod.filter
        (fun v => vodKey v == k)).map (fun v => v.vod_id) = [p]) ∧
      (∀ v ∈ (merge_duplicate_group_with_log db ids key now).1.vod.filter
          (fun v => vodKey v == k),
        ∃ ps : List String, List.Sorted strLe ps ∧ ps.Nodup ∧
          (∀ s, (s ∈ ps ↔ ∃ m ∈ db.vod.filter (fun u => vodKey u == k),
            m.vod_play_url ≠ "" ∧
            (resIdPrefixOf db m.res_source_id).map rstripUnderscores = some s)) ∧
          v.vod_play_from = String.intercalate "$$$" ps) ∧
      (∀ m ∈ db.vod.filter (fun u => vodKey u == k), m.vod_id ≠ p →
        (∀ v ∈ (merge_duplicate_group_with_log db ids key now).1.vod,
          v.vod_id ≠ m.vod_id) ∧
        (∀ e ∈ (merge_duplicate_group_with_log db ids key now).1.search,
          e.1 ≠ m.vod_id)) ∧
      (∃ en : MergeLogEntry, en.merged_vod_ids = ids ∧
        (merge_duplicate_group_with_log db ids key now).1.mergeLog
          = db.mergeLog ++ [en]) := by
  have hrows : groupRows db ids = db.vod.filter (fun v => vodKey v == k) := by
    rw [hid_eq]
    exact groupRows_of_key db k hids
  have hgne : groupRows db ids ≠ [] := by
    rw [hrows]
    exact hne
  have hgt : ∀ v ∈ groupRows db ids, 0 ≤ v.vod_time := by
    rw [hrows]
    exact fun v hv => htime v (List.mem_filter.mp hv).1
  obtain ⟨w, hwmem, hsel⟩ := select_primary_mem db ids hgne hgt
  have hwg : w ∈ db.vod.filter (fun v => vodKey v == k) := by
    rw [← hrows]
    exact hwmem
  have hpmem : w.vod_id ∈ ids := select_some_mem_ids db ids w.vod_id hsel
  rw [merge_some db ids key now w.vod_id hsel]
  set upd : Vod → Vod := fun v =>
    if v.vod_id == w.vod_id then
      { v with vod_play_from := (merge_play_data db ids).1,
               vod_play_url := (merge_play_data db ids).2 }
    else v with hupd
  have hinv_pk : ∀ v ∈ db.vod, ((vodKey (upd v) == k) = (vodKey v == k)) := by
    intro v _
    simp only [hupd]
    split <;> rfl
  have hinv_id : ∀ v, (upd v).vod_id = v.vod_id := by
    intro v
    simp only [hupd]
    split <;> rfl
  have hmemid : ∀ v ∈ db.vod.filter (fun u => vodKey u == k), v.vod_id ∈ ids := by
    intro v hv
    rw [hid_eq]
    exact List.mem_map.mpr ⟨v, hv, rfl⟩
  have hgnd : ((db.vod.filter (fun u => vodKey u == k)).map
      (fun v => v.vod_id)).Nodup :=
    hids.sublist ((List.filter_sublist db.vod).map _)
  have hfilter_eq :
      ((db.vod.map upd).filter
          (fun v => !((ids.filter (fun vid => vid != w.vod_id)).contains v.vod_id))).filter
        (fun v => vodKey v == k) = [upd w] := by
    rw [List.filter_comm]
    have h1 : (db.vod.map upd).filter (fun v => vodKey v == k)
        = (db.vod.filter (fun v => vodKey v == k)).map upd :=
      filter_map_comm upd _ db.vod hinv_pk
    rw [h1]
    have hinv_del : ∀ v ∈ db.vod.filter (fun u => vodKey u == k),
        ((!((ids.filter (fun vid => vid != w.vod_id)).contains (upd v).vod_id))
          = (!((ids.filter (fun vid => vid != w.vod_id)).contains v.vod_id))) := by
      intro v _
      rw [hinv_id v]
    have h2 := filter_map_comm upd
      (fun v => !((ids.filter (fun vid => vid != w.vod_id)).contains v.vod_id))
      (db.vod.filter (fun u => vodKey u == k)) hinv_del
    rw [h2]
    have h3 : (db.vod.filter (fun u => vodKey u == k)).filter
          (fun v => !((ids.filter (fun vid => vid != w.vod_id)).contains v.vod_id))
        = (db.vod.filter (fun u => vodKey u == k)).filter
          (fun v => v.vod_id == w.vod_id) := by
      apply List.filter_congr
      intro v hv
      by_cases hc : v.vod_id = w.vod_id
      · have hnc : v.vod_id ∉ ids.filter (fun vid => vid != w.vod_id) := by
          intro hmem
          have := (List.mem_filter.mp hmem).2
          rw [hc] at this
          simp at this
        have : ((ids.filter (fun vid => vid != w.vod_id)).contains v.vod_id) = false := by
          simpa using hnc
        rw [this, hc]
        simp
      · have hyc : v.vod_id ∈ ids.filter (fun vid => vid != w.vod_id) :=
          List.mem_filter.mpr ⟨hmemid v hv, by simpa using hc⟩
        have : ((ids.filter (fun vid => vid != w.vod_id)).contains v.vod_id) = true := by
          simpa using hyc
        rw [this]
        simp [hc]
    rw [h3, filter_id_unique _ w hwg hgnd]
    rfl
  have hupdw : upd w = { w with vod_play_from := (merge_play_data db ids).1,
                                vod_play_url := (merge_play_data db ids).2 } := by
    simp only [hupd]
    rw [if_pos (by simp)]
  refine ⟨w.vod_id, hpmem, rfl, ?_, ?_, ?_, ?_⟩
  · show (((db.vod.map upd).filter _).filter (fun v => vodKey v == k)).map
      (fun v => v.vod_id) = [w.vod_id]
    rw [hfilter_eq]
    show [(upd w).vod_id] = [w.vod_id]
    rw [hinv_id w]
  · intro v hv
    show ∃ ps : List String, _
    rcases merge_play_from_spec db ids with ⟨ps, hsort, hnd, hmem, hjoin⟩
    refine ⟨ps, hsort, hnd, ?_, ?_⟩
    · intro s
      rw [hmem s, hrows]
    · have hveq : v = upd w := by
        have := hv
        rw [hfilter_eq] at this
        simpa using this
      rw [hveq, hupdw, ← hjoin]
  · intro m hm hmp
    have hmid : m.vod_id ∈ ids.filter (fun vid => vid != w.vod_id) :=
      List.mem_filter.mpr ⟨hmemid m hm, by simpa using hmp⟩
    have hmc : ((ids.filter (fun vid => vid != w.vod_id)).contains m.vod_id) = true := by
      simpa using hmid
    constructor
    · intro v hv hvm
      have hdel := (List.mem_filter.mp hv).2
      rw [hvm, hmc] at hdel
      exact Bool.noConfusion hdel
    · intro e he hem
      have hdel := (List.mem_filter.mp he).2
      rw [hem, hmc] at hdel
      exact Bool.noConfusion hdel
  · exact ⟨_, rfl, rfl⟩

/-- The database component of `auto_merge`'s fold, with the counters
dropped. -/
def mergeFoldDB (now : Int) (gs : List ((String × String) × List Nat)) (db : DB) : DB :=
  gs.foldl (fun d g => (merge_duplicate_group_with_log d g.2 (mergeKeyStr g.1) now).1) db

theorem mergeFold_db (now : Int) (gs : List ((String × String) × List Nat)) :
    ∀ (db : DB) (a b : Nat),
      (gs.foldl (mergeStep now) (db, a, b)).1 = mergeFoldDB now gs db := by
  induction gs with
  | nil => intro db a b; rfl
  | cons g t ih =>
    intro db a b
    simp only [List.foldl_cons]
    have hdb := mergeStep_db now (db, a, b) g
    calc (t.foldl (mergeStep now) (mergeStep now (db, a, b) g)).1
        = mergeFoldDB now t (mergeStep now (db, a, b) g).1 := ih _ _ _
      _ = mergeFoldDB now t
          (merge_duplicate_group_with_log db g.2 (mergeKeyStr g.1) now).1 := by rw [hdb]
      _ = mergeFoldDB now (g :: t) db := rfl

/-- Running the remaining groups of a merge pass does not disturb a key
disjoint from all of them: its rows, the config, already-absent ids and
the log rows of an untouched id list all survive unchanged. -/
theorem mergeFold_frame (now : Int) :
    ∀ (gs : List ((String × String) × List Nat)) (db : DB) (k : String × String),
      (∀ g ∈ gs, g.2 = (db.vod.filter (fun v => vodKey v == g.1)).map
        (fun v => v.vod_id)) →
      (∀ g ∈ gs, g.1 ≠ k) →
      ((gs.map (fun g => g.1)).Nodup) →
      ((db.vod.map (fun v => v.vod_id)).Nodup) →
      ((mergeFoldDB now gs db).vod.filter (fun v => vodKey v == k)
          = db.vod.filter (fun v => vodKey v == k)) ∧
      (mergeFoldDB now gs db).config = db.config ∧
      (∀ x : Nat, (∀ v ∈ db.vod, v.vod_id ≠ x) →
        ∀ v ∈ (mergeFoldDB now gs db).vod, v.vod_id ≠ x) ∧
      (∀ x : Nat, (∀ e ∈ db.search, e.1 ≠ x) →
        ∀ e ∈ (mergeFoldDB now gs db).search, e.1 ≠ x) ∧
      (∀ ids0 : List Nat, (∀ g ∈ gs, g.2 ≠ ids0) →
        (mergeFoldDB now gs db).mergeLog.filter (fun e => e.merged_vod_ids == ids0)
          = db.mergeLog.filter (fun e => e.merged_vod_ids == ids0)) := by
  intro gs
  induction gs with
  | nil =>
    intro db k _ _ _ _
    exact ⟨rfl, rfl, fun x hx => hx, fun x hx => hx, fun ids0 _ => rfl⟩
  | cons g1 t ih =>
    intro db k hC1 hk hknd hids
    have hkne : g1.1 ≠ k := hk g1 (List.mem_cons_self _ _)
    have htkeys : ∀ g ∈ t, g.1 ≠ g1.1 := by
      intro g hg heq
      rw [List.map_cons, List.nodup_cons] at hknd
      exact hknd.1 (heq ▸ List.mem_map.mpr ⟨g, hg, rfl⟩)
    have hdisj : ∀ (k' : String × String), g1.1 ≠ k' →
        ∀ v ∈ db.vod, (vodKey v == k') = true → g1.2.contains v.vod_id = false := by
      intro k' hne v hv hkey
      rw [hC1 g1 (List.mem_cons_self _ _)]
      exact key_ids_disjoint db hids g1.1 k' hne v hv hkey
    have hframe : ∀ (k' : String × String), g1.1 ≠ k' →
        ((merge_duplicate_group_with_log db g1.2 (mergeKeyStr g1.1) now).1.vod.filter
            (fun v => vodKey v == k')
          = db.vod.filter (fun v => vodKey v == k')) :=
      fun k' hne => merge_key_frame db g1.2 (mergeKeyStr g1.1) now k' (hdisj k' hne)
    have hconfig := merge_config db g1.2 (mergeKeyStr g1.1) now
    have hnd' : ((merge_duplicate_group_with_log db g1.2
        (mergeKeyStr g1.1) now).1.vod.map (fun v => v.vod_id)).Nodup :=
      hids.sublist (merge_ids_sublist db g1.2 (mergeKeyStr g1.1) now)
    have hC1' : ∀ g ∈ t, g.2 = ((merge_duplicate_group_with_log db g1.2
        (mergeKeyStr g1.1) now).1.vod.filter (fun v => vodKey v == g.1)).map
          (fun v => v.vod_id) := by
      intro g hg
      rw [hframe g.1 (fun heq => htkeys g hg heq.symm)]
      exact hC1 g (List.mem_cons_of_mem g1 hg)
    have hknd' : (t.map (fun g => g.1)).Nodup := by
      rw [List.map_cons, List.nodup_cons] at hknd
      exact hknd.2
    rcases ih (merge_duplicate_group_with_log db g1.2 (mergeKeyStr g1.1) now).1 k
        hC1' (fun g hg => hk g (List.mem_cons_of_mem g1 hg)) hknd' hnd' with
      ⟨ihf, ihc, ihv, ihs, ihl⟩
    refine ⟨?_, ?_, ?_, ?_, ?_⟩
    · rw [show mergeFoldDB now (g1 :: t) db = mergeFoldDB now t
        (merge_duplicate_group_with_log db g1.2 (mergeKeyStr g1.1) now).1 from rfl]
      rw [ihf, hframe k hkne]
    · rw [show mergeFoldDB now (g1 :: t) db = mergeFoldDB now t
        (merge_duplicate_group_with_log db g1.2 (mergeKeyStr g1.1) now).1 from rfl]
      rw [ihc, hconfig]
    · intro x hx
      rw [show mergeFoldDB now (g1 :: t) db = mergeFoldDB now t
        (merge_duplicate_group_with_log db g1.2 (mergeKeyStr g1.1) now).1 from rfl]
      apply ihv
      intro v hv
      rcases merge_vod_trace db g1.2 (mergeKeyStr g1.1) now v hv with
        ⟨u, hu, hid, _, _, _⟩
      rw [hid]
      exact hx u hu
    · intro x hx
      rw [show mergeFoldDB now (g1 :: t) db = mergeFoldDB now t
        (merge_duplicate_group_with_log db g1.2 (mergeKeyStr g1.1) now).1 from rfl]
      apply ihs
      intro e he
      exact hx e (merge_search_subset db g1.2 (mergeKeyStr g1.1) now e he)
    · intro ids0 hids0
      rw [show mergeFoldDB now (g1 :: t) db = mergeFoldDB now t
        (merge_duplicate_group_with_log db g1.2 (mergeKeyStr g1.1) now).1 from rfl]
      rw [ihl ids0 (fun g hg => hids0 g (List.mem_cons_of_mem g1 hg))]
      exact merge_log_filter db g1.2 (mergeKeyStr g1.1) now ids0
        (hids0 g1 (List.mem_cons_self _ _))

/-- What one merge pass guarantees for the key `k`: some original holder
`p` of the key survives as the only one, its play-from field is the
sorted `'$$$'`-join of the group's stripped source prefixes with play
data, the other holders are gone from `sc_vod` and `sc_search`, and
exactly one log entry for the group's id list was appended. -/
def PassConcl (before F : DB) (k : String × String) : Prop :=
  ∃ p ∈ (before.vod.filter (fun v => vodKey v == k)).map (fun v => v.vod_id),
    ((F.vod.filter (fun v => vodKey v == k)).map (fun v => v.vod_id) = [p]) ∧
    (∀ v ∈ F.vod.filter (fun v => vodKey v == k),
      ∃ ps : List String, List.Sorted strLe ps ∧ ps.Nodup ∧
        (∀ s, (s ∈ ps ↔ ∃ m ∈ before.vod.filter (fun u => vodKey u == k),
          m.vod_play_url ≠ "" ∧
          (resIdPrefixOf before m.res_source_id).map rstripUnderscores = some s)) ∧
        v.vod_play_from = String.intercalate "$$$" ps) ∧
    (∀ m ∈ before.vod.filter (fun u => vodKey u == k), m.vod_id ≠ p →
      (∀ v ∈ F.vod, v.vod_id ≠ m.vod_id) ∧ (∀ e ∈ F.search, e.1 ≠ m.vod_id)) ∧
    ((F.mergeLog.filter (fun e => e.merged_vod_ids
        == (before.vod.filter (fun v => vodKey v == k)).map
          (fun v => v.vod_id))).length
      = (before.mergeLog.filter (fun e => e.merged_vod_ids
        == (before.vod.filter (fun v => vodKey v == k)).map
          (fun v => v.vod_id))).length + 1)

/-- One merge pass establishes `PassConcl` for every listed duplicate
group, provided the groups carry the current id lists of pairwise
distinct keys over a table with unique ids and nonnegative timestamps. -/
theorem mergePass_spec (now : Int) :
    ∀ (gs : List ((String × String) × List Nat)) (db2 : DB),
      (∀ g ∈ gs, g.2 = (db2.vod.filter (fun v => vodKey v == g.1)).map
        (fun v => v.vod_id)) →
      (∀ g ∈ gs, g.2 ≠ []) →
      ((gs.map (fun g => g.1)).Nodup) →
      ((db2.vod.map (fun v => v.vod_id)).Nodup) →
      (∀ v ∈ db2.vod, 0 ≤ v.vod_time) →
      ∀ g ∈ gs, PassConcl db2 (mergeFoldDB now gs db2) g.1 := by
  intro gs
  induction gs with
  | nil => intro db2 _ _ _ _ _ g hg; exact absurd hg (List.not_mem_nil g)
  | cons g0 t ih =>
    intro db2 hC1 hlen hknd hids htime g hg
    have hid0 : g0.2 = (db2.vod.filter (fun v => vodKey v == g0.1)).map
        (fun v => v.vod_id) := hC1 g0 (List.mem_cons_self _ _)
    have hne0 : db2.vod.filter (fun v => vodKey v == g0.1) ≠ [] := by
      intro hnil
      apply hlen g0 (List.mem_cons_self _ _)
      rw [hid0, hnil]
      rfl
    have htkeys : ∀ g' ∈ t, g'.1 ≠ g0.1 := by
      intro g' hg' heq
      rw [List.map_cons, List.nodup_cons] at hknd
      exact hknd.1 (heq ▸ List.mem_map.mpr ⟨g', hg', rfl⟩)
    obtain ⟨p, hpmem, hpsel, hponly, hplay, habsent, hlog⟩ :=
      merge_group_effect db2 now g0.1 (mergeKeyStr g0.1) g0.2 hid0 hids htime hne0
    have hconfig3 := merge_config db2 g0.2 (mergeKeyStr g0.1) now
    have hnd3 : ((merge_duplicate_group_with_log db2 g0.2
        (mergeKeyStr g0.1) now).1.vod.map (fun v => v.vod_id)).Nodup :=
      hids.sublist (merge_ids_sublist db2 g0.2 (mergeKeyStr g0.1) now)
    have htime3 : ∀ v ∈ (merge_duplicate_group_with_log db2 g0.2
        (mergeKeyStr g0.1) now).1.vod, 0 ≤ v.vod_time := by
      intro v hv
      rcases merge_vod_trace db2 g0.2 (mergeKeyStr g0.1) now v hv with
        ⟨u, hu, _, htu, _, _⟩
      rw [htu]
      exact htime u hu
    have hkeyframe : ∀ (k' : String × String), g0.1 ≠ k' →
        ((merge_duplicate_group_with_log db2 g0.2 (mergeKeyStr g0.1) now).1.vod.filter
            (fun v => vodKey v == k')
          = db2.vod.filter (fun v => vodKey v == k')) := by
      intro k' hne
      apply merge_key_frame
      intro v hv hkey
      rw [hid0]
      exact key_ids_disjoint db2 hids g0.1 k' hne v hv hkey
    have hC1' : ∀ g' ∈ t, g'.2 = ((merge_duplicate_group_with_log db2 g0.2
        (mergeKeyStr g0.1) now).1.vod.filter (fun v => vodKey v == g'.1)).map
          (fun v => v.vod_id) := by
      intro g' hg'
      rw [hkeyframe g'.1 (fun heq => htkeys g' hg' heq.symm)]
      exact hC1 g' (List.mem_cons_of_mem g0 hg')
    have hknd' : (t.map (fun g => g.1)).Nodup := by
      rw [List.map_cons, List.nodup_cons] at hknd
      exact hknd.2
    have hids_ne : ∀ g' ∈ t, g'.2 ≠ g0.2 := by
      intro g' hg' heq
      have h1 := hC1 g' (List.mem_cons_of_mem g0 hg')
      have hne' : db2.vod.filter (fun v => vodKey v == g'.1) ≠ [] := by
        intro hnil
        apply hlen g' (List.mem_cons_of_mem g0 hg')
        rw [h1, hnil]
        rfl
      apply key_ids_ne db2 hids g'.1 g0.1 (htkeys g' hg') hne'
      rw [← h1, ← hid0, heq]
    have hF : mergeFoldDB now (g0 :: t) db2 = mergeFoldDB now t
        (merge_duplicate_group_with_log db2 g0.2 (mergeKeyStr g0.1) now).1 := rfl
    rcases List.mem_cons.mp hg with hge | hgt
    · rw [hge]
      rcases mergeFold_frame now t
          (merge_duplicate_group_with_log db2 g0.2 (mergeKeyStr g0.1) now).1 g0.1
          hC1' (fun g' hg' => htkeys g' hg') hknd' hnd3 with
        ⟨hfF, _, hvF, hsF, hlF⟩
      unfold PassConcl
      rw [hF, hfF]
      refine ⟨p, by rw [← hid0]; exact hpmem, hponly, hplay, ?_, ?_⟩
      · intro m hm hmp
        rcases habsent m hm hmp with ⟨hv3, hs3⟩
        exact ⟨hvF m.vod_id hv3, hsF m.vod_id hs3⟩
      · have hlogF := hlF ((db2.vod.filter (fun v => vodKey v == g0.1)).map
          (fun v => v.vod_id)) (fun g' hg' heq => hids_ne g' hg' (by rw [heq, ← hid0]))
        rw [hlogF]
        rcases hlog with ⟨en, hen, hlog3⟩
        rw [hlog3, List.filter_append]
        have hmatch : ([en].filter (fun e => e.merged_vod_ids
            == (db2.vod.filter (fun v => vodKey v == g0.1)).map
              (fun v => v.vod_id))) = [en] := by
          have : (en.merged_vod_ids == (db2.vod.filter (fun v => vodKey v == g0.1)).map
              (fun v => v.vod_id)) = true := by
            rw [hen, hid0]
            exact beq_self_eq_true _
          simp [this]
        rw [hmatch, List.length_append]
        rfl
    · have hlen' : ∀ g' ∈ t, g'.2 ≠ [] :=
        fun g' hg' => hlen g' (List.mem_cons_of_mem g0 hg')
      have ihc := ih (merge_duplicate_group_with_log db2 g0.2
        (mergeKeyStr g0.1) now).1 hC1' hlen' hknd' hnd3 htime3 g hgt
      have hfilt : (merge_duplicate_group_with_log db2 g0.2
          (mergeKeyStr g0.1) now).1.vod.filter (fun v => vodKey v == g.1)
            = db2.vod.filter (fun v => vodKey v == g.1) :=
        hkeyframe g.1 (fun heq => htkeys g hgt heq.symm)
      have hpref : resIdPrefixOf (merge_duplicate_group_with_log db2 g0.2
          (mergeKeyStr g0.1) now).1 = resIdPrefixOf db2 := by
        funext sid
        unfold resIdPrefixOf
        rw [hconfig3]
      have hgg : g.2 = (db2.vod.filter (fun v => vodKey v == g.1)).map
          (fun v => v.vod_id) := hC1 g (List.mem_cons_of_mem g0 hgt)
      have hlogeq : (merge_duplicate_group_with_log db2 g0.2
            (mergeKeyStr g0.1) now).1.mergeLog.filter
              (fun e => e.merged_vod_ids
                == (db2.vod.filter (fun v => vodKey v == g.1)).map (fun v => v.vod_id))
          = db2.mergeLog.filter (fun e => e.merged_vod_ids
              == (db2.vod.filter (fun v => vodKey v == g.1)).map
                (fun v => v.vod_id)) :=
        merge_log_filter db2 g0.2 (mergeKeyStr g0.1) now _
          (fun heq => hids_ne g hgt (by rw [hgg, ← heq]))
      unfold PassConcl at ihc ⊢
      rw [hF]
      rw [hfilt, hpref, hlogeq] at ihc
      exact ihc

/-- C1: for every duplicate group sharing the identity key
`(title, year)` with more than one member before the merge pass (on a
store with unique record ids and nonnegative timestamps), after the
merge pass exactly one record with that key remains; its
`vod_play_from` field is the `'$$$'`-join, sorted by source prefix, of
exactly the distinct stripped source prefixes whose group members had
nonempty playback data (the first member per prefix contributing);
every non-primary member and its search entry are deleted and exactly
one merge-log entry for the group is appended. -/
theorem claim1_merge_pass (db : DB) (now : Int) (k : String × String)
    (hids : (db.vod.map (fun v => v.vod_id)).Nodup)
    (htime : ∀ v ∈ db.vod, 0 ≤ v.vod_time)
    (hdup : 1 < (db.vod.filter (fun v => vodKey v == k)).length) :
    PassConcl db (auto_merge db now).1 k := by
  have hdbeq : (auto_merge db now).1
      = mergeFoldDB now (find_duplicate_groups db) db :=
    mergeFold_db now (find_duplicate_groups db) db 0 0
  rw [hdbeq]
  have hC1 : ∀ g ∈ find_duplicate_groups db,
      g.2 = (db.vod.filter (fun v => vodKey v == g.1)).map (fun v => v.vod_id) := by
    intro g hg
    rw [(find_duplicate_groups_mem db g hg).1]
    rfl
  have hlen : ∀ g ∈ find_duplicate_groups db, g.2 ≠ [] := by
    intro g hg hnil
    have := (find_duplicate_groups_mem db g hg).2
    rw [hnil] at this
    simp at this
  exact mergePass_spec now (find_duplicate_groups db) db hC1 hlen
    (find_duplicate_groups_keys_nodup db) hids htime (k, groupIds db k)
    (find_duplicate_groups_complete db k hdup)

/-- Record A of the C1 witness store: has playback data, source 1. -/
def vodC1A : Vod :=
  { vod_id := 1, res_unique_id := "aa_1", res_source_id := 1, vod_name := "Bar",
    vod_en := "", vod_type_id := 6, vod_pic := "pic", vod_remarks := "",
    vod_blurb := "", vod_play_url := "u1", vod_play_from := "aa",
    vod_actor := "", vod_director := "", vod_year := "2020", vod_area := "",
    vod_lang := "", vod_class := "", vod_time := 7, vod_time_hits := 0,
    vod_hits := 0, hot_rank := 0 }

/-- Record B of the C1 witness store: same `(title, year)`, no playback
data, source 2. -/
def vodC1B : Vod :=
  { vodC1A with
    vod_id := 2, res_unique_id := "bb_9", res_source_id := 2,
    vod_play_url := "", vod_play_from := "", vod_time := 3 }

/-- First configured source of the C1 witness store. -/
def srcC1A : Source :=
  { res_source_id := 1, res_name := "aasrc", res_url := "u", data_format := "json",
    resIdPrefix := "aa_", res_mapping := [("10", 6)], operation_mode := "add_update" }

/-- Second configured source of the C1 witness store. -/
def srcC1B : Source :=
  { res_source_id := 2, res_name := "bbsrc", res_url := "u", data_format := "json",
    resIdPrefix := "bb_", res_mapping := [("10", 6)], operation_mode := "add_update" }

/-- The C1 witness store: two records of the duplicate key
`(Bar, 2020)`. -/
def dbC1 : DB :=
  { config := [srcC1A, srcC1B], vod := [vodC1A, vodC1B],
    search := [(1, "Bar"), (2, "Bar")], mergeLog := [], nextVodId := 3 }

theorem claim1_merge_pass_witness :
    ((dbC1.vod.map (fun v => v.vod_id)).Nodup ∧
      (∀ v ∈ dbC1.vod, 0 ≤ v.vod_time) ∧
      1 < (dbC1.vod.filter (fun v => vodKey v == ("Bar", "2020"))).length) ∧
    PassConcl dbC1 (auto_merge dbC1 5).1 ("Bar", "2020") :=
  ⟨⟨by decide, by decide, by decide⟩,
    claim1_merge_pass dbC1 5 ("Bar", "2020") (by decide) (by decide) (by decide)⟩

/-- C10: when a completed run collected nothing, enriched nothing and
migrated no hot rank (`done 0 0 0`), the snapshot swap is skipped: the
Published snapshot and the backups are left exactly as they were, and a
Working snapshot is still present on disk afterwards. -/
theorem claim10_no_change_no_publish (w : World)
    (listO : Nat → Int → Nat → FetchAttempt)
    (detailO : Nat → Nat → Nat → FetchAttempt) (now : Int) (fuel : Nat)
    (h : (run_collection true w listO detailO now fuel).2.1 = RunOutcome.done 0 0 0) :
    (run_collection true w listO detailO now fuel).1.main = w.main ∧
    (run_collection true w listO detailO now fuel).1.backups = w.backups ∧
    ((run_collection true w listO detailO now fuel).1.temp).isSome = true := by
  have hrl : run_collection true w listO detailO now fuel
      = runLocked w listO detailO now fuel := rfl
  rw [hrl] at h ⊢
  unfold runLocked at h ⊢
  cases hm : w.main with
  | none =>
    simp only [hm] at h
    exact RunOutcome.noConfusion h
  | some m =>
    simp only [hm] at h ⊢
    by_cases hs : m.1.config.isEmpty = true
    · rw [if_pos hs] at h
      exact RunOutcome.noConfusion h
    · rw [if_neg hs] at h ⊢
      split at h
      · exact RunOutcome.noConfusion h
      · next hcond =>
        rw [if_neg hcond]
        injection h with h1 h2 h3
        rw [h3, h2, h1]
        simp

/-- The configured source of the C10 witness world. -/
def srcC10 : Source :=
  { res_source_id := 1, res_name := "s", res_url := "u", data_format := "json",
    resIdPrefix := "aa_", res_mapping := [("10", 6)], operation_mode := "add_update" }

/-- The Published snapshot content of the C10 witness world. -/
def dbM10 : DB :=
  { config := [srcC10], vod := [], search := [], mergeLog := [], nextVodId := 1 }

/-- The C10 witness world: a Published snapshot, no Working snapshot,
no backups. -/
def worldW10 : World :=
  { temp := none, main := some (dbM10, 0), backups := [] }

/-- The list endpoint of the C10 witness: page 1 reports one page with
an empty list, so nothing is collected. -/
def listO10 : Nat → Int → Nat → FetchAttempt := fun _ _ _ =>
  FetchAttempt.ok { code := 1, page := some 1, pagecount := some 1,
                    total := some 0, limit := some 20, list := [] }

/-- The detail endpoint of the C10 witness (never reached). -/
def detailO10 : Nat → Nat → Nat → FetchAttempt := fun _ _ _ =>
  FetchAttempt.transportErr

theorem claim10_no_change_no_publish_witness :
    ((run_collection true worldW10 listO10 detailO10 0 3).2.1
      = RunOutcome.done 0 0 0) ∧
    ((run_collection true worldW10 listO10 detailO10 0 3).1.main = worldW10.main ∧
      (run_collection true worldW10 listO10 detailO10 0 3).1.backups
        = worldW10.backups ∧
      ((run_collection true worldW10 listO10 detailO10 0 3).1.temp).isSome = true) :=
  ⟨by decide, claim10_no_change_no_publish worldW10 listO10 detailO10 0 3 (by decide)⟩
